import Mathlib

/-!
Verification of the digibyte-js asset codec and coin-selection layer.

The definitions below are a shallow embedding of the JavaScript sources:

* src/lib/asset/paymentencoder.js      — payment record codec
* src/lib/asset/burnpaymentencoder.js  — burn-aware payment codec
* src/unnamed (issueflagsencoder.js)   — issuance flags byte codec
* src/lib/asset/issuanceencoder.js     — issuance codec
* src/lib/asset/transferencoder.js     — transfer and burn codec
* src/lib/asset/asset.js               — asset orchestrator (dispatch,
  skip-flag transform, coin selection)

Bytes are modelled as `List Nat` with every element below 256 by
construction.  JavaScript Buffer slicing past the end yields a short
buffer; the list model gives the same behaviour through `take`/`drop`.
Fallible operations return `Option` or `Except CodecError`.
-/

deriving instance DecidableEq for Except

namespace DigiByte

/-- Errors thrown by the codec layer.  Each constructor corresponds to one
JavaScript `throw`/`checkState` site; the string argument of `missingField`
names the field of the corresponding `checkState` call. -/
inductive CodecError where
  | missingField (field : String)
  | exceedsByteBudget
  | cannotFitHash
  | missingTorrentHash
  | unrecognizedCode
  | invalidDivisibility
  | invalidAggregationPolicy
  | missingAmount
  | outputOutOfBounds
  | needsOutputOrBurn
  | conflictingBurnOutput
  | conflictingBurnRange
  | reservedOutputValue
  | malformedAmount
  | insufficientAssetFunds
  deriving DecidableEq, Repr

/-- Fuel-indexed big-endian byte expansion; the fuel only forces
structural recursion and never runs out at the call below. -/
def natBytesF : Nat → Nat → List Nat
  | 0, _ => []
  | fuel + 1, n => if n = 0 then [] else natBytesF fuel (n / 256) ++ [n % 256]

/-- Big-endian byte expansion of a natural number (empty for 0). -/
def natBytes (n : Nat) : List Nat := natBytesF n n

/-- Big-endian byte recomposition. -/
def bytesToNat (bs : List Nat) : Nat :=
  bs.foldl (fun acc b => acc * 256 + b) 0

/-- Modelled from the spec: the external variable-length amount codec
("sffc-encoder", §2 "Amount Codec" and §6 "Consumed external collaborator
contracts").  The package is not part of this repository; the spec only
fixes its interface: `encode(uint) -> bytes`, `decode(cursor) -> uint`
consuming exactly the bytes `encode` produced, failing on a
malformed/truncated leading byte.  We realise that contract by a simple
self-delimiting code: a length byte followed by the big-endian digits. -/
def sffcEncode (n : Nat) : List Nat :=
  (natBytes n).length :: natBytes n

/-- Modelled from the spec: decoding half of the external amount codec;
consumes from the front of the byte list and returns the remainder,
failing on a truncated input. -/
def sffcDecode (bs : List Nat) : Option (Nat × List Nat) :=
  match bs with
  | [] => none
  | len :: rest =>
    if rest.length < len then none
    else some (bytesToNat (rest.take len), rest.drop len)

/-- One payment record in wire form (paymentencoder.js constructor fields:
`skip`, `range`, `percent`, `output`, `amount`). -/
structure Payment where
  skip : Bool
  range : Bool
  percent : Bool
  output : Nat
  amount : Nat
  deriving DecidableEq, Repr

/-- Fuel-indexed count of binary digits (0 for 0). -/
def bitLenF : Nat → Nat → Nat
  | 0, _ => 0
  | fuel + 1, n => if n = 0 then 0 else bitLenF fuel (n / 2) + 1

/-- Length of the JavaScript binary string `n.toString(2)`. -/
def bitLen (n : Nat) : Nat :=
  if n = 0 then 1 else bitLenF n n

/-- PaymentEncoder.prototype.encode: flag byte carrying
skip(0x80)/range(0x40)/percent(0x20) over the output reference
(1 byte, low 5 bits, when not range; 2 bytes, low 13 bits, when range),
followed by the amount-codec bytes.  Fails `missingAmount` on a zero
amount and `outputOutOfBounds` when the output reference does not fit
(the JavaScript negative-output check cannot fire on a natural). -/
def paymentEncode (p : Payment) : Except CodecError (List Nat) :=
  if p.amount = 0 then .error .missingAmount
  else if (¬p.range ∧ bitLen p.output > 5) ∨ (p.range ∧ bitLen p.output > 13) then
    .error .outputOutOfBounds
  else
    let buf : List Nat :=
      if p.range then [p.output / 256, p.output % 256] else [p.output]
    let b0 := buf.headD 0
    let b0 := if p.skip then b0 ||| 0x80 else b0
    let b0 := if p.range then b0 ||| 0x40 else b0
    let b0 := if p.percent then b0 ||| 0x20 else b0
    .ok ((b0 :: buf.tail) ++ sffcEncode p.amount)

/-- PaymentEncoder.prototype.decode: reads the flag byte (`checkState`
rejects a missing or zero byte), extracts the flags (mask 0xe0), reads a
second output byte when `range` is set, then decodes the amount from the
cursor.  When `range` is set but the cursor is exhausted, JavaScript keeps
the one-byte output and then fails inside the amount decode on the empty
cursor; the record is rejected either way, so that branch is `none`. -/
def paymentDecode (bs : List Nat) : Option (Payment × List Nat) :=
  match bs with
  | [] => none
  | f :: r1 =>
    if f = 0 then none
    else
      let flags := f &&& 0xe0
      let skip : Bool := flags &&& 0x80 != 0
      let range : Bool := flags &&& 0x40 != 0
      let percent : Bool := flags &&& 0x20 != 0
      if range then
        match r1 with
        | b2 :: r2 =>
          match sffcDecode r2 with
          | none => none
          | some (a, rest) =>
            some ({ skip := skip, range := range, percent := percent,
                    output := (f &&& 0x1f) * 256 + b2, amount := a }, rest)
        | [] => none
      else
        match sffcDecode r1 with
        | none => none
        | some (a, rest) =>
          some ({ skip := skip, range := range, percent := percent,
                  output := f &&& 0x1f, amount := a }, rest)

theorem sffcDecode_length {bs rest : List Nat} {n : Nat}
    (h : sffcDecode bs = some (n, rest)) : rest.length < bs.length := by
  cases bs with
  | nil => simp [sffcDecode] at h
  | cons len tl =>
    simp only [sffcDecode] at h
    split at h
    · exact absurd h (by simp)
    · rename_i hlen
      have : rest = tl.drop len := by
        have := congrArg (fun x => (Option.map Prod.snd x)) h
        simpa using this.symm
      subst this
      simp only [List.length_drop, List.length_cons]
      omega

theorem paymentDecode_length {bs rest : List Nat} {p : Payment}
    (h : paymentDecode bs = some (p, rest)) : rest.length < bs.length := by
  cases bs with
  | nil => simp [paymentDecode] at h
  | cons f r1 =>
    simp only [paymentDecode] at h
    split at h
    · exact absurd h (by simp)
    · split at h
      · -- range is set: a second output byte is consumed
        cases r1 with
        | nil => simp at h
        | cons b2 r2 =>
          cases hd : sffcDecode r2 with
          | none => simp only [hd] at h; exact absurd h (by simp)
          | some v =>
            obtain ⟨a, rest0⟩ := v
            simp only [hd, Option.some.injEq, Prod.mk.injEq] at h
            have := sffcDecode_length hd
            have hrest : rest = rest0 := h.2.symm
            subst hrest
            simp only [List.length_cons]
            omega
      · cases hd : sffcDecode r1 with
        | none => simp only [hd] at h; exact absurd h (by simp)
        | some v =>
          obtain ⟨a, rest0⟩ := v
          simp only [hd, Option.some.injEq, Prod.mk.injEq] at h
          have := sffcDecode_length hd
          have hrest : rest = rest0 := h.2.symm
          subst hrest
          simp only [List.length_cons]
          omega

/-- Fuel-indexed payment list decoding; each decoded record consumes at
least one byte, so the byte count is always enough fuel. -/
def decodeBulkF : Nat → List Nat → List Payment
  | 0, _ => []
  | fuel + 1, bs =>
    match paymentDecode bs with
    | none => []
    | some (p, rest) => p :: decodeBulkF fuel rest

/-- PaymentEncoder.prototype.decodeBulk: decode payment records until the
first parse failure, which terminates the list. -/
def decodeBulk (bs : List Nat) : List Payment := decodeBulkF bs.length bs

/-- PaymentEncoder.prototype.encodeBulk: concatenation of the encodings,
failing at the first payment that does not encode. -/
def encodeBulk : List Payment → Except CodecError (List Nat)
  | [] => .ok []
  | p :: rest =>
    match paymentEncode p with
    | .error e => .error e
    | .ok b =>
      match encodeBulk rest with
      | .error e => .error e
      | .ok bs => .ok (b ++ bs)

/-- One payment record as handled by the burn-aware codec
(burnpaymentencoder.js constructor fields: `amount`, `output`, `range`,
`burn`; note the constructor does not keep `skip` or `percent`, so those
read as undefined downstream).  `none` models an undefined field. -/
structure BurnPayment where
  amount : Nat
  output : Option Nat
  range : Option Bool
  burn : Bool
  deriving DecidableEq, Repr

/-- The reserved output reference representing a burn (BURN_OUTPUT). -/
def BURN_OUTPUT : Nat := 0x1f

/-- BurnPaymentEncoder.prototype.encode: validates the burn/output/range
exclusivity and the reserved sentinel, substitutes the sentinel for a
burn, then delegates to the plain payment codec.  The delegated payment
always has `skip = false` and `percent = false` because the constructor
dropped those fields. -/
def burnPaymentEncode (p : BurnPayment) : Except CodecError (List Nat) :=
  if p.output.isNone ∧ ¬p.burn then .error .needsOutputOrBurn
  else if p.output.isSome ∧ p.burn then .error .conflictingBurnOutput
  else if p.range.isSome ∧ p.burn then .error .conflictingBurnRange
  else if ¬(p.range.getD false) ∧ p.output = some BURN_OUTPUT then .error .reservedOutputValue
  else if p.burn then
    paymentEncode { skip := false, range := false, percent := false,
                    output := BURN_OUTPUT, amount := p.amount }
  else
    paymentEncode { skip := false, range := p.range.getD false, percent := false,
                    output := p.output.getD 0, amount := p.amount }

/-- BurnPaymentEncoder.prototype.decode: plain decode, then a non-range
payment whose output equals the sentinel is reinterpreted as a burn with
`output` and `range` removed.  The result keeps only the four constructor
fields (in particular the decoded `skip`/`percent` are dropped). -/
def burnPaymentDecode (bs : List Nat) : Option (BurnPayment × List Nat) :=
  match paymentDecode bs with
  | none => none
  | some (p, rest) =>
    if ¬p.range ∧ p.output = BURN_OUTPUT then
      some ({ amount := p.amount, output := none, range := none, burn := true }, rest)
    else
      some ({ amount := p.amount, output := some p.output, range := some p.range,
              burn := false }, rest)

theorem burnPaymentDecode_length {bs rest : List Nat} {p : BurnPayment}
    (h : burnPaymentDecode bs = some (p, rest)) : rest.length < bs.length := by
  unfold burnPaymentDecode at h
  cases hd : paymentDecode bs with
  | none => rw [hd] at h; exact absurd h (by simp)
  | some v =>
    obtain ⟨q, rest0⟩ := v
    simp only [hd] at h
    have := paymentDecode_length hd
    split at h <;>
      (simp only [Option.some.injEq, Prod.mk.injEq] at h;
       obtain ⟨-, h2⟩ := h; subst h2; omega)

/-- Fuel-indexed burn-aware payment list decoding. -/
def burnDecodeBulkF : Nat → List Nat → List BurnPayment
  | 0, _ => []
  | fuel + 1, bs =>
    match burnPaymentDecode bs with
    | none => []
    | some (p, rest) => p :: burnDecodeBulkF fuel rest

/-- BurnPaymentEncoder.prototype.decodeBulk: decode burn-aware payment
records until the first parse failure. -/
def burnDecodeBulk (bs : List Nat) : List BurnPayment := burnDecodeBulkF bs.length bs

/-- BurnPaymentEncoder.prototype.encodeBulk. -/
def burnEncodeBulk : List BurnPayment → Except CodecError (List Nat)
  | [] => .ok []
  | p :: rest =>
    match burnPaymentEncode p with
    | .error e => .error e
    | .ok b =>
      match burnEncodeBulk rest with
      | .error e => .error e
      | .ok bs => .ok (b ++ bs)

/-- The three known aggregation policies, in index order
(issueflagsencoder.js `aggregationPolicies`). -/
def aggregationPolicies : List String := ["aggregatable", "hybrid", "dispersed"]

/-- Index of a policy in `aggregationPolicies`
(`aggregationPolicies.indexOf(policy)`, with -1 mapped to `none`). -/
def policyIndex (aggregationPolicy : String) : Option Nat :=
  if aggregationPolicy = "aggregatable" then some 0
  else if aggregationPolicy = "hybrid" then some 1
  else if aggregationPolicy = "dispersed" then some 2
  else none

/-- IssueFlagsEncoder.prototype.encode: one byte built as
`((divisibility << 1 | lockBit) << 2 | policyIndex) << 2`.  Fails
`invalidDivisibility` outside [0,7] and `invalidAggregationPolicy` when
the policy is not in the table.  The constructor default (a falsy policy
becomes aggregatable) is unreachable from the issuance encoder, whose
checkState rejects falsy policies first. -/
def issueFlagsEncode (divisibility : Nat) (lockStatus : Bool)
    (aggregationPolicy : String) : Except CodecError Nat :=
  if divisibility > 7 then .error .invalidDivisibility
  else
    match policyIndex aggregationPolicy with
    | none => .error .invalidAggregationPolicy
    | some i =>
      .ok (((((divisibility <<< 1) ||| (if lockStatus then 1 else 0)) <<< 2) ||| i) <<< 2)

/-- IssueFlagsEncoder.prototype.decode: the inverse shift sequence.  An
out-of-table policy index (3) yields `none` (JavaScript indexes past the
array and gets undefined). -/
def issueFlagsDecode (b : Nat) : Nat × Bool × Option String :=
  let n1 := b >>> 2
  let aggregationPolicy := aggregationPolicies[n1 &&& 0x3]?
  let n2 := n1 >>> 2
  let lockStatus : Bool := n2 &&& 1 != 0
  let n3 := n2 >>> 1
  (n3 &&& 0x7, lockStatus, aggregationPolicy)

/-- Two protocol bytes: `padLeadingZeros(protocol.toString(16), 2)`.
JavaScript recurses forever when the protocol exceeds 0xffff (the hex
string can never reach length 4); all theorems below therefore assume
`protocol < 0x10000`, where this closed form agrees. -/
def protocolBytes (protocol : Nat) : List Nat :=
  [protocol / 256 % 256, protocol % 256]

/-- An issuance record as consumed by IssuanceEncoder.prototype.encode
(issuanceencoder.js constructor fields).  `amount = 0`,
`lockStatus = false`, `aggregationPolicy = ""`, `protocol = 0` and
`version = 0` model the corresponding falsy JavaScript values. -/
structure IssuanceRecord where
  amount : Nat
  lockStatus : Bool
  divisibility : Nat
  aggregationPolicy : String
  protocol : Nat
  version : Nat
  payments : List Payment
  torrentHash : Option (List Nat)
  sha2 : Option (List Nat)
  noRules : Bool
  deriving DecidableEq, Repr

/-- IssuanceEncoder.prototype.encode: the five `checkState` preconditions
(JavaScript truthiness, so `lockStatus = false` fails like an unset
field), then header/tail assembly and the byte-budget fitting algorithm.
The two sequential size ifs of the JavaScript are nested here: the
second can only fire when the first did, because a failed first if
leaves the running size unchanged.  Returns the wire bytes and the
ordered leftover hash list.  An undefined payments array encodes like an
empty one (both produce no payment bytes). -/
def issuanceEncode (r : IssuanceRecord) (byteSize : Nat) :
    Except CodecError (List Nat × List (List Nat)) :=
  if r.amount = 0 then .error (.missingField "amount")
  else if r.lockStatus = false then .error (.missingField "lockStatus")
  else if r.aggregationPolicy = "" then .error (.missingField "aggregationPolicy")
  else if r.protocol = 0 then .error (.missingField "protocol")
  else if r.version = 0 then .error (.missingField "version")
  else
    match encodeBulk r.payments with
    | .error e => .error e
    | .ok payments =>
    match issueFlagsEncode r.divisibility r.lockStatus r.aggregationPolicy with
    | .error e => .error e
    | .ok issueFlagsByte =>
    let issueHeader := protocolBytes r.protocol ++ [r.version % 256]
    let amount := sffcEncode r.amount
    let issueTail := amount ++ payments ++ [issueFlagsByte]
    let issueByteSize := issueHeader.length + issueTail.length + 1
    if issueByteSize > byteSize then .error .exceedsByteBudget
    else
      match r.sha2 with
      | none =>
        match r.torrentHash with
        | some th =>
          if issueByteSize + th.length > byteSize then .error .cannotFitHash
          else .ok (issueHeader ++ [0x04] ++ th ++ issueTail, [])
        | none =>
          let opcode := if r.noRules then 0x05 else 0x06
          .ok (issueHeader ++ [opcode] ++ issueTail, [])
      | some s2 =>
        match r.torrentHash with
        | none => .error .missingTorrentHash
        | some th =>
          let size1 := issueByteSize + th.length
          if size1 ≤ byteSize then
            if size1 + s2.length ≤ byteSize then
              .ok (issueHeader ++ [0x01] ++ th ++ s2 ++ issueTail, [])
            else
              .ok (issueHeader ++ [0x02] ++ th ++ issueTail, [s2])
          else
            .ok (issueHeader ++ [0x03] ++ issueTail, [th, s2])

/-- util/assets decodeAmountByVersion: version 1 divides the decoded
amount by `10 ^ divisibility` (JavaScript float division; it agrees with
natural division whenever the division is exact, which holds at every
input used in this file). -/
def decodeAmountByVersion (version amount divisibility : Nat) : Nat :=
  if version = 1 then amount / 10 ^ divisibility else amount

/-- The record produced by IssuanceEncoder.prototype.decode.  Absent
optional fields are `none`; `multiSig` lists `(index, hashType)` pairs. -/
structure DecodedIssuance where
  divisibility : Nat
  lockStatus : Bool
  aggregationPolicy : Option String
  protocol : Nat
  version : Nat
  torrentHash : Option (List Nat)
  sha2 : Option (List Nat)
  noRules : Option Bool
  multiSig : List (Nat × String)
  amount : Nat
  payments : List Payment
  deriving DecidableEq, Repr

/-- The body of IssuanceEncoder.prototype.decode: flags decoded from the
last byte, then a cursor over the body reading protocol(2), version(1),
opcode(1), the opcode-dependent embedded hashes, the amount (rescaled by
version), and the bulk payments.  Buffers too short to reach an opcode
throw Unrecognized Code in JavaScript (the undefined/NaN reads fall
through to the final else). -/
def issuanceDecodeBody (lastByte : Nat) (body : List Nat) :
    Except CodecError DecodedIssuance :=
    let (divisibility, lockStatus, aggregationPolicy) := issueFlagsDecode lastByte
    match body with
    | p1 :: p2 :: v :: op :: rest =>
      let protocol := p1 * 256 + p2
      let version := v
      let parsed : Except CodecError
          (Option (List Nat) × Option (List Nat) × Option Bool × List (Nat × String) × List Nat) :=
        if op = 0x01 then
          .ok (some (rest.take 20), some ((rest.drop 20).take 32), none, [],
               (rest.drop 20).drop 32)
        else if op = 0x02 then
          .ok (some (rest.take 20), none, none, [(1, "sha2")], rest.drop 20)
        else if op = 0x03 then
          .ok (none, none, none, [(1, "sha2"), (2, "torrentHash")], rest)
        else if op = 0x04 then
          .ok (some (rest.take 20), none, none, [], rest.drop 20)
        else if op = 0x05 then
          .ok (none, none, some true, [], rest)
        else if op = 0x06 then
          .ok (none, none, some false, [], rest)
        else .error .unrecognizedCode
      match parsed with
      | .error e => .error e
      | .ok (torrentHash, sha2, noRules, multiSig, cursor) =>
        match sffcDecode cursor with
        | none => .error .malformedAmount
        | some (rawAmount, cursor2) =>
          .ok { divisibility := divisibility, lockStatus := lockStatus,
                aggregationPolicy := aggregationPolicy, protocol := protocol,
                version := version, torrentHash := torrentHash, sha2 := sha2,
                noRules := noRules, multiSig := multiSig,
                amount := decodeAmountByVersion version rawAmount divisibility,
                payments := decodeBulk cursor2 }
    | _ => .error .unrecognizedCode

/-- IssuanceEncoder.prototype.decode entry point: flags come from the
last byte, the cursor runs over everything before it. -/
def issuanceDecode (bs : List Nat) : Except CodecError DecodedIssuance :=
  match bs.getLast? with
  | none => .error .unrecognizedCode
  | some lastByte => issuanceDecodeBody lastByte (bs.take (bs.length - 1))

/-- The payment list of a transfer-family record: the `type` field of the
JavaScript record selects PaymentEncoder (`transfer`) or
BurnPaymentEncoder (`burn`), so the two families carry differently shaped
payment objects. -/
inductive TPayments where
  | plain (ps : List Payment)
  | burn (ps : List BurnPayment)
  deriving DecidableEq, Repr

/-- A transfer/burn record as consumed by
TransferEncoder.prototype.encode (transferencoder.js constructor fields;
the `type` field is carried by the `TPayments` variant). -/
structure TransferRecord where
  payments : TPayments
  protocol : Nat
  version : Nat
  sha2 : Option (List Nat)
  torrentHash : Option (List Nat)
  noRules : Bool
  deriving DecidableEq, Repr

/-- TransferEncoder.prototype.encode: header assembly and the same
byte-budget fitting algorithm as the issuance codec, with the opcode
base 0x10 (transfer) or 0x20 (burn) and no issuance tail fields.  The
checkState on `payments` only rejects an undefined array (arrays are
always truthy), which the model cannot represent; the sequential size
ifs are nested as in the issuance encoder. -/
def transferEncode (r : TransferRecord) (byteSize : Nat) :
    Except CodecError (List Nat × List (List Nat)) :=
  let opBase : Nat := match r.payments with | .plain _ => 0x10 | .burn _ => 0x20
  match (match r.payments with
         | .plain ps => encodeBulk ps
         | .burn ps => burnEncodeBulk ps) with
  | .error e => .error e
  | .ok payments =>
  let transferHeader := protocolBytes r.protocol ++ [r.version % 256]
  let issueByteSize := transferHeader.length + payments.length + 1
  if issueByteSize > byteSize then .error .exceedsByteBudget
  else
    match r.sha2 with
    | none =>
      match r.torrentHash with
      | some th =>
        let opcode := if r.noRules then opBase + 4 else opBase + 3
        if issueByteSize + th.length > byteSize then .error .cannotFitHash
        else .ok (transferHeader ++ [opcode] ++ th ++ payments, [])
      | none => .ok (transferHeader ++ [opBase + 5] ++ payments, [])
    | some s2 =>
      match r.torrentHash with
      | none => .error .missingTorrentHash
      | some th =>
        let size1 := issueByteSize + th.length
        if size1 ≤ byteSize then
          if size1 + s2.length ≤ byteSize then
            .ok (transferHeader ++ [opBase] ++ th ++ s2 ++ payments, [])
          else
            .ok (transferHeader ++ [opBase + 1] ++ th ++ payments, [s2])
        else
          .ok (transferHeader ++ [opBase + 2] ++ payments, [th, s2])

/-- The record produced by TransferEncoder.prototype.decode. -/
structure DecodedTransfer where
  protocol : Nat
  version : Nat
  torrentHash : Option (List Nat)
  sha2 : Option (List Nat)
  noRules : Option Bool
  multiSig : List (Nat × String)
  payments : TPayments
  deriving DecidableEq, Repr

/-- TransferEncoder.prototype.decode: protocol(2), version(1), opcode(1);
the opcode high nibble selects the payment codec (0x1_ plain, 0x2_
burn-aware, otherwise Unrecognized Code), the full opcode selects the
embedded hash layout, and the remainder is bulk-decoded.  Buffers shorter
than four bytes throw Unrecognized Code in JavaScript (the undefined
opcode matches no mask). -/
def transferDecode (bs : List Nat) : Except CodecError DecodedTransfer :=
  match bs with
  | p1 :: p2 :: v :: op :: rest =>
    if ¬(op &&& 0xf0 = 0x10 ∨ op &&& 0xf0 = 0x20) then .error .unrecognizedCode
    else
      let isBurn := op &&& 0xf0 = 0x20
      let parsed : Except CodecError
          (Option (List Nat) × Option (List Nat) × Option Bool × List (Nat × String) × List Nat) :=
        if op = 0x10 ∨ op = 0x20 then
          .ok (some (rest.take 20), some ((rest.drop 20).take 32), none, [],
               (rest.drop 20).drop 32)
        else if op = 0x11 ∨ op = 0x21 then
          .ok (some (rest.take 20), none, none, [(1, "sha2")], rest.drop 20)
        else if op = 0x12 ∨ op = 0x22 then
          .ok (none, none, none, [(1, "sha2"), (2, "torrentHash")], rest)
        else if op = 0x13 ∨ op = 0x23 then
          .ok (some (rest.take 20), none, some false, [], rest.drop 20)
        else if op = 0x14 ∨ op = 0x24 then
          .ok (some (rest.take 20), none, some true, [], rest.drop 20)
        else if op = 0x15 ∨ op = 0x25 then
          .ok (none, none, none, [], rest)
        else .error .unrecognizedCode
      match parsed with
      | .error e => .error e
      | .ok (torrentHash, sha2, noRules, multiSig, cursor) =>
        .ok { protocol := p1 * 256 + p2, version := v, torrentHash := torrentHash,
              sha2 := sha2, noRules := noRules, multiSig := multiSig,
              payments := if isBurn then .burn (burnDecodeBulk cursor)
                          else .plain (decodeBulk cursor) }
  | _ => .error .unrecognizedCode

/-- A caller-facing payment of the asset orchestrator: carries an
explicit `input` index (asset.js `addPayment`/`addBurn` shapes).  `none`
and `false` model absent JavaScript fields. -/
structure InPayment where
  input : Nat
  amount : Nat
  output : Option Nat
  range : Bool
  percent : Bool
  burn : Bool
  deriving DecidableEq, Repr

/-- A payment in wire-facing skip form, as produced by
`paymentsInputToSkip` (asset.js): the `input` field replaced by `skip`. -/
structure SkipPayment where
  skip : Bool
  amount : Nat
  output : Option Nat
  range : Bool
  percent : Bool
  burn : Bool
  deriving DecidableEq, Repr

/-- Copy of an input payment with `input` deleted and `skip` added
(the loop body of `paymentsInputToSkip`). -/
def toSkip (p : InPayment) (skip : Bool) : SkipPayment :=
  { skip := skip, amount := p.amount, output := p.output, range := p.range,
    percent := p.percent, burn := p.burn }

/-- The skip-assignment loop of `paymentsInputToSkip`: `skip` is true
exactly when a next element exists and its `input` is strictly greater. -/
def assignSkips : List InPayment → List SkipPayment
  | [] => []
  | [p] => [toSkip p false]
  | p :: q :: rest => toSkip p (decide (q.input > p.input)) :: assignSkips (q :: rest)

/-- asset.js `paymentsInputToSkip`: deep copy, stable sort ascending by
`input` (JavaScript `sort((a, b) => a.input - b.input)`), then the
skip-assignment loop. -/
def paymentsInputToSkip (ps : List InPayment) : List SkipPayment :=
  assignSkips (ps.mergeSort (fun a b => a.input ≤ b.input))

/-- The loop of `paymentsSkipToInput` with its running input counter. -/
def skipToInputFrom : List SkipPayment → Nat → List InPayment
  | [], _ => []
  | p :: rest, input =>
    (if p.burn then
      { input := input, amount := p.amount, output := none, range := false,
        percent := p.percent, burn := true }
     else
      { input := input, amount := p.amount, output := p.output, range := p.range,
        percent := p.percent, burn := false })
    :: skipToInputFrom rest (if p.skip then input + 1 else input)

/-- asset.js `paymentsSkipToInput`: rebuild explicit input indices from
the skip flags, starting at 0 and incrementing after every `skip`. -/
def paymentsSkipToInput (ps : List SkipPayment) : List InPayment :=
  skipToInputFrom ps 0

/-- View of a decoded plain payment as the object `paymentsSkipToInput`
receives from `fromBuffer` (it has no `burn` field, which reads as
false). -/
def Payment.toSkipPayment (p : Payment) : SkipPayment :=
  { skip := p.skip, amount := p.amount, output := some p.output, range := p.range,
    percent := p.percent, burn := false }

/-- View of a decoded burn-aware payment as the object
`paymentsSkipToInput` receives: the burn codec constructor dropped
`skip`/`percent`, so both read as undefined (false). -/
def BurnPayment.toSkipPayment (p : BurnPayment) : SkipPayment :=
  { skip := false, amount := p.amount, output := p.output,
    range := p.range.getD false, percent := false, burn := p.burn }

/-- The orchestrator-level Asset record as populated by
`Asset.prototype.fromBuffer` on top of the constructor defaults
(`aggregationPolicy = aggregatable`, `lockStatus = true`,
`divisibility = 0`, `amount` unset), which only an issuance overrides. -/
structure AssetRecord where
  protocol : Nat
  version : Nat
  multiSig : List (Nat × String)
  payments : List InPayment
  type : String
  lockStatus : Bool
  aggregationPolicy : Option String
  divisibility : Nat
  amount : Option Nat
  deriving DecidableEq, Repr

/-- Asset.prototype.fromBuffer: dispatch on the opcode byte `data[3]`
through the `encodingLookup` table (issuance 0x00-0x0f, transfer
0x10-0x1f, burn 0x20-0x2f; any other byte finds no codec and the
JavaScript call on undefined throws), decode with the selected codec,
convert wire payments with `paymentsSkipToInput`, and copy the
issuance-only fields when the family is issuance.  No protocol check is
performed anywhere on this path. -/
def assetFromBuffer (bs : List Nat) : Except CodecError AssetRecord :=
  match bs[3]? with
  | none => .error .unrecognizedCode
  | some op =>
    if op ≤ 0x0f then
      (issuanceDecode bs).map (fun d =>
        { protocol := d.protocol, version := d.version, multiSig := d.multiSig,
          payments := paymentsSkipToInput (d.payments.map Payment.toSkipPayment),
          type := "issuance", lockStatus := d.lockStatus,
          aggregationPolicy := d.aggregationPolicy, divisibility := d.divisibility,
          amount := some d.amount })
    else if op ≤ 0x2f then
      (transferDecode bs).map (fun d =>
        { protocol := d.protocol, version := d.version, multiSig := d.multiSig,
          payments := paymentsSkipToInput (match d.payments with
            | .plain ps => ps.map Payment.toSkipPayment
            | .burn ps => ps.map BurnPayment.toSkipPayment),
          type := if op ≤ 0x1f then "transfer" else "burn",
          lockStatus := true, aggregationPolicy := some "aggregatable",
          divisibility := 0, amount := none })
    else .error .unrecognizedCode

/-- One asset entry of an unspent output. -/
structure UtxoAsset where
  assetId : String
  amount : Nat
  deriving DecidableEq, Repr

/-- An unspent output as consumed by the coin-selection fragment modelled
here: identity plus its asset holdings. -/
structure Utxo where
  txid : String
  index : Nat
  assets : List UtxoAsset
  deriving DecidableEq, Repr

/-- Asset.prototype.getUtxoAssetAmount: the summed holding of one asset
in one output. -/
def getUtxoAssetAmount (u : Utxo) (assetId : String) : Nat :=
  ((u.assets.filter (fun a => a.assetId == assetId)).map (fun a => a.amount)).sum

/-- The score assigned in `findBestGreaterOrEqualAmountUtxo` to a
candidate holding at least the needed amount of the target asset:
10000/1000 for the target (exact/greater), plus 100/10 per other needed
asset (exact/greater) or the fractional `holding / need` when short.
Disqualified candidates keep score 0.  `assetList` is the needed-assets
mapping in insertion order. -/
def utxoScore (assetList : List (String × Nat)) (key : String) (u : Utxo) : Rat :=
  let need := (assetList.lookup key).getD 0
  let assetAmount := getUtxoAssetAmount u key
  if assetAmount < need then 0
  else
    (if assetAmount = need then (10000 : Rat) else 1000) +
    ((assetList.filter (fun kv => kv.1 != key)).map (fun kv =>
      let amt := getUtxoAssetAmount u kv.1
      if amt = kv.2 then (100 : Rat)
      else if amt > kv.2 then 10
      else (amt : Rat) / (kv.2 : Rat))).sum

/-- Asset.prototype.findBestGreaterOrEqualAmountUtxo: `none` when no
output holds at least the needed amount of the target asset, otherwise
the first maximum-score output (lodash `maxBy` keeps the first on
ties). -/
def findBestGreaterOrEqualAmountUtxo (utxos : List Utxo)
    (assetList : List (String × Nat)) (key : String) : Option Utxo :=
  if utxos.all (fun u => getUtxoAssetAmount u key < (assetList.lookup key).getD 0) then
    none
  else
    utxos.foldl (fun acc u =>
      match acc with
      | none => some u
      | some b =>
        if utxoScore assetList key u > utxoScore assetList key b then some u else acc)
      none

/-- The greedy accumulation loop of `findBestMatchByNeededAssets`: walk
the sorted pool, pushing each output and its holding, and stop as soon as
the running total reaches the need; `none` when the pool is exhausted
first. -/
def accumulateUtxos (key : String) (need : Nat) :
    List Utxo → Nat → List Utxo → Option (List Utxo)
  | [], _, _ => none
  | u :: rest, foundAmount, selected =>
    let selected2 := selected ++ [u]
    let foundAmount2 := foundAmount + getUtxoAssetAmount u key
    if foundAmount2 ≥ need then some selected2
    else accumulateUtxos key need rest foundAmount2 selected2

/-- The output-selection phase of Asset.prototype.findBestMatchByNeededAssets:
the single-output fast path, else the pool stably sorted by descending
holding of the target asset (lodash `sortBy` with negated key) and
accumulated greedily.  `none` models the JavaScript `return false` (the
cleared selection); the subsequent allocation walk over the selected
outputs mutates the transaction and is outside this model. -/
def findBestMatchByNeededAssets (utxos : List Utxo)
    (assetList : List (String × Nat)) (key : String) : Option (List Utxo) :=
  match findBestGreaterOrEqualAmountUtxo utxos assetList key with
  | some u => some [u]
  | none =>
    let sorted := utxos.mergeSort
      (fun a b => getUtxoAssetAmount b key ≤ getUtxoAssetAmount a key)
    accumulateUtxos key ((assetList.lookup key).getD 0) sorted 0 []

/-- The caller in Asset.prototype.addInputsForSendTransaction: a failed
selection throws the insufficient-asset-funds error
("Not enough assets - asset: key"). -/
def selectAssetUtxos (utxos : List Utxo) (assetList : List (String × Nat))
    (key : String) : Except CodecError (List Utxo) :=
  match findBestMatchByNeededAssets utxos assetList key with
  | none => .error .insufficientAssetFunds
  | some selected => .ok selected

/-! Support lemmas for the round-trip theorems. -/

theorem foldl_byte (bs : List Nat) (acc : Nat) :
    bs.foldl (fun a b => a * 256 + b) acc
      = acc * 256 ^ bs.length + bs.foldl (fun a b => a * 256 + b) 0 := by
  induction bs generalizing acc with
  | nil => simp
  | cons b tl ih =>
    simp only [List.foldl_cons, List.length_cons]
    rw [ih (acc * 256 + b), ih (0 * 256 + b)]
    ring

theorem bytesToNat_natBytesF :
    ∀ (fuel n : Nat), n ≤ fuel → bytesToNat (natBytesF fuel n) = n := by
  intro fuel
  induction fuel with
  | zero =>
    intro n h
    have h0 : n = 0 := by omega
    simp [natBytesF, bytesToNat, h0]
  | succ f ih =>
    intro n h
    simp only [natBytesF]
    split
    · rename_i h0; simp [bytesToNat, h0]
    · rename_i hn
      have hlt : n / 256 < n := Nat.div_lt_self (Nat.pos_of_ne_zero hn) (by omega)
      have hrec := ih (n / 256) (by omega)
      unfold bytesToNat at hrec ⊢
      rw [List.foldl_append, List.foldl_cons, List.foldl_nil, hrec]
      omega

theorem bytesToNat_natBytes (n : Nat) : bytesToNat (natBytes n) = n :=
  bytesToNat_natBytesF n n le_rfl

theorem sffcDecode_sffcEncode (n : Nat) (rest : List Nat) :
    sffcDecode (sffcEncode n ++ rest) = some (n, rest) := by
  unfold sffcEncode sffcDecode
  simp only [List.cons_append]
  rw [if_neg (by simp [List.length_append])]
  rw [List.take_left' rfl, List.drop_left' rfl, bytesToNat_natBytes]

theorem bitLenF_zero : ∀ fuel, bitLenF fuel 0 = 0 := by
  intro fuel
  cases fuel <;> simp [bitLenF]

theorem bitLenF_eq_log2 :
    ∀ (fuel n : Nat), 0 < n → n ≤ fuel → bitLenF fuel n = Nat.log2 n + 1 := by
  intro fuel
  induction fuel with
  | zero => intro n hn h; omega
  | succ f ih =>
    intro n hn h
    simp only [bitLenF, if_neg (by omega : ¬n = 0)]
    by_cases h2 : n / 2 = 0
    · have hn1 : n = 1 := by omega
      rw [h2, bitLenF_zero, hn1]
      conv_rhs => rw [Nat.log2]
      norm_num
    · rw [ih (n / 2) (by omega) (by omega)]
      conv_rhs => rw [Nat.log2]
      rw [if_pos (by omega)]

theorem bitLen_le_five {o : Nat} (h : bitLen o ≤ 5) : o < 32 := by
  unfold bitLen at h
  split at h
  · omega
  · rename_i ho
    rw [bitLenF_eq_log2 o o (by omega) le_rfl] at h
    have hk : o.log2 < 5 := by omega
    have h2 := (Nat.log2_lt ho).mp hk
    simpa using h2

theorem bitLen_le_thirteen {o : Nat} (h : bitLen o ≤ 13) : o < 8192 := by
  unfold bitLen at h
  split at h
  · omega
  · rename_i ho
    rw [bitLenF_eq_log2 o o (by omega) le_rfl] at h
    have hk : o.log2 < 13 := by omega
    have h2 := (Nat.log2_lt ho).mp hk
    simpa using h2

/-- Flag OR-chain of the payment encoder as plain addition (the flag bits
are disjoint from a 5-bit output). -/
theorem flagOr_eq_add (s r pc : Bool) :
    ∀ o < 32,
      (if pc then (if r then (if s then o ||| 128 else o) ||| 64
                   else (if s then o ||| 128 else o)) ||| 32
       else (if r then (if s then o ||| 128 else o) ||| 64
             else (if s then o ||| 128 else o)))
        = o + (cond s 128 0) + (cond r 64 0) + (cond pc 32 0) := by
  cases s <;> cases r <;> cases pc <;> decide

theorem flagMask_eq (s r pc : Bool) :
    ∀ o < 32,
      (o + (cond s 128 0) + (cond r 64 0) + (cond pc 32 0)) &&& 224
        = (cond s 128 0) + (cond r 64 0) + (cond pc 32 0) := by
  cases s <;> cases r <;> cases pc <;> decide

theorem flagLow_eq (s r pc : Bool) :
    ∀ o < 32,
      (o + (cond s 128 0) + (cond r 64 0) + (cond pc 32 0)) &&& 31 = o := by
  cases s <;> cases r <;> cases pc <;> decide

theorem skipBit_eq (s r pc : Bool) :
    (((cond s 128 0) + (cond r 64 0) + (cond pc 32 0)) &&& 128 != 0) = s := by
  cases s <;> cases r <;> cases pc <;> decide

theorem rangeBit_eq (s r pc : Bool) :
    (((cond s 128 0) + (cond r 64 0) + (cond pc 32 0)) &&& 64 != 0) = r := by
  cases s <;> cases r <;> cases pc <;> decide

theorem percentBit_eq (s r pc : Bool) :
    (((cond s 128 0) + (cond r 64 0) + (cond pc 32 0)) &&& 32 != 0) = pc := by
  cases s <;> cases r <;> cases pc <;> decide

theorem paymentDecode_paymentEncode {p : Payment} {bytes : List Nat}
    (henc : paymentEncode p = .ok bytes)
    (hnz : p.skip = true ∨ p.range = true ∨ p.percent = true ∨ p.output ≠ 0)
    (rest : List Nat) :
    paymentDecode (bytes ++ rest) = some (p, rest) := by
  obtain ⟨s, r, pc, o, a⟩ := p
  simp only at hnz
  unfold paymentEncode at henc
  simp only at henc
  split at henc
  · exact absurd henc (by simp)
  split at henc
  · exact absurd henc (by simp)
  rename_i ha hb
  simp only [Except.ok.injEq] at henc
  subst henc
  cases r with
  | false =>
    have ho : o < 32 := bitLen_le_five (by
      simp only [Bool.false_eq_true, false_and, and_false, or_false, not_and,
        not_lt, Bool.not_eq_true] at hb
      simpa using hb (by simp))
    have hC := flagOr_eq_add s false pc o ho
    simp only [Bool.false_eq_true, if_false, List.headD_cons, List.tail_cons] at hC ⊢
    rw [hC]
    have hne : o + cond s 128 0 + cond false 64 0 + cond pc 32 0 ≠ 0 := by
      cases s <;> cases pc <;> simp_all
    simp only [List.cons_append, List.nil_append, paymentDecode, if_neg hne,
      flagMask_eq s false pc o ho, skipBit_eq s false pc, rangeBit_eq s false pc,
      percentBit_eq s false pc, Bool.false_eq_true, if_false,
      sffcDecode_sffcEncode, flagLow_eq s false pc o ho]
  | true =>
    have ho : o < 8192 := bitLen_le_thirteen (by
      simp only [Bool.not_eq_true, not_and, not_or, not_lt] at hb
      exact hb.2 trivial)
    have hhi : o / 256 < 32 := by omega
    have hC := flagOr_eq_add s true pc (o / 256) hhi
    simp only [if_true, List.headD_cons, List.tail_cons] at hC ⊢
    rw [hC]
    have hne : o / 256 + cond s 128 0 + cond true 64 0 + cond pc 32 0 ≠ 0 := by
      cases s <;> cases pc <;> simp
    simp only [List.cons_append, List.nil_append, paymentDecode, if_neg hne,
      flagMask_eq s true pc (o / 256) hhi, skipBit_eq s true pc, rangeBit_eq s true pc,
      percentBit_eq s true pc, if_true, sffcDecode_sffcEncode,
      flagLow_eq s true pc (o / 256) hhi]
    simp only [Option.some.injEq, Prod.mk.injEq, Payment.mk.injEq,
      eq_self_iff_true, and_true, true_and]
    omega

theorem decodeBulkF_congr :
    ∀ (fuel : Nat) {fuel' : Nat} {bs : List Nat}, bs.length ≤ fuel →
      bs.length ≤ fuel' → decodeBulkF fuel bs = decodeBulkF fuel' bs := by
  intro fuel
  induction fuel with
  | zero =>
    intro fuel' bs h h'
    have h0 : bs = [] := by
      cases bs
      · rfl
      · simp at h
    subst h0
    cases fuel'
    · rfl
    · simp [decodeBulkF, paymentDecode]
  | succ f ih =>
    intro fuel' bs h h'
    cases fuel' with
    | zero =>
      have h0 : bs = [] := by
        cases bs
        · rfl
        · simp at h'
      subst h0
      simp [decodeBulkF, paymentDecode]
    | succ f' =>
      simp only [decodeBulkF]
      cases hd : paymentDecode bs with
      | none => simp only [hd]
      | some v =>
        obtain ⟨p, rest⟩ := v
        simp only [hd]
        have hlt := paymentDecode_length hd
        rw [@ih f' rest (by omega) (by omega)]

theorem decodeBulk_none {bs : List Nat} (h : paymentDecode bs = none) :
    decodeBulk bs = [] := by
  unfold decodeBulk
  cases bs with
  | nil => rfl
  | cons b tl => simp [decodeBulkF, h]

theorem decodeBulk_some {bs rest : List Nat} {p : Payment}
    (h : paymentDecode bs = some (p, rest)) :
    decodeBulk bs = p :: decodeBulk rest := by
  have hlen := paymentDecode_length h
  unfold decodeBulk
  cases bs with
  | nil => simp [paymentDecode] at h
  | cons b tl =>
    simp only [List.length_cons, decodeBulkF, h]
    congr 1
    have hle : rest.length ≤ tl.length := by
      simp only [List.length_cons] at hlen
      omega
    exact decodeBulkF_congr tl.length hle le_rfl

theorem decodeBulk_encodeBulk {ps : List Payment} {bytes : List Nat}
    (henc : encodeBulk ps = .ok bytes)
    (hval : ∀ p ∈ ps,
      p.skip = true ∨ p.range = true ∨ p.percent = true ∨ p.output ≠ 0) :
    decodeBulk bytes = ps := by
  induction ps generalizing bytes with
  | nil =>
    simp only [encodeBulk, Except.ok.injEq] at henc
    subst henc
    exact decodeBulk_none rfl
  | cons p tl ih =>
    simp only [encodeBulk] at henc
    cases hp : paymentEncode p with
    | error e => rw [hp] at henc; exact absurd henc (by simp)
    | ok b =>
      rw [hp] at henc
      cases ht : encodeBulk tl with
      | error e => rw [ht] at henc; exact absurd henc (by simp)
      | ok bs =>
        rw [ht] at henc
        simp only [Except.ok.injEq] at henc
        subst henc
        rw [decodeBulk_some
          (paymentDecode_paymentEncode hp (hval p (List.mem_cons_self p tl)) bs)]
        rw [ih ht (fun q hq => hval q (List.mem_cons_of_mem p hq))]

theorem burnPaymentDecode_burnPaymentEncode {p : BurnPayment} {bytes : List Nat}
    (henc : burnPaymentEncode p = .ok bytes)
    (hrange : p.burn = false → p.range.isSome)
    (hnz : p.burn = true ∨ p.range.getD false = true ∨ p.output.getD 0 ≠ 0)
    (rest : List Nat) :
    burnPaymentDecode (bytes ++ rest) = some (p, rest) := by
  obtain ⟨a, op, rg, bu⟩ := p
  unfold burnPaymentEncode at henc
  simp only at henc hrange hnz
  split at henc
  · exact absurd henc (by simp)
  split at henc
  · exact absurd henc (by simp)
  split at henc
  · exact absurd henc (by simp)
  split at henc
  · exact absurd henc (by simp)
  rename_i h1 h2 h3 h4
  split at henc
  · rename_i hbu
    have hop : op = none := by
      cases op
      · rfl
      · exact absurd ⟨by simp, hbu⟩ h2
    have hrg : rg = none := by
      cases rg
      · rfl
      · exact absurd ⟨by simp, hbu⟩ h3
    subst hop hrg
    have hbu' : bu = true := hbu
    subst hbu'
    have hpd := paymentDecode_paymentEncode henc
      (by right; right; right; simp [BURN_OUTPUT]) rest
    unfold burnPaymentDecode
    simp only [hpd]
    simp [BURN_OUTPUT]
  · rename_i hbu
    have hbu' : bu = false := by
      cases bu with
      | false => rfl
      | true => exact absurd rfl hbu
    subst hbu'
    obtain ⟨o, hop⟩ : ∃ o, op = some o := by
      cases op
      · exact absurd ⟨rfl, by simp⟩ h1
      · exact ⟨_, rfl⟩
    obtain ⟨rv, hrg⟩ : ∃ rv, rg = some rv := by
      have hs := hrange rfl
      cases rg
      · simp at hs
      · exact ⟨_, rfl⟩
    subst hop hrg
    simp only [Option.getD_some] at henc hnz h4
    have hpz : (false : Bool) = true ∨ rv = true ∨ (false : Bool) = true ∨ o ≠ 0 := by
      rcases hnz with h | h | h
      · simp at h
      · exact Or.inr (Or.inl h)
      · exact Or.inr (Or.inr (Or.inr h))
    have hpd := paymentDecode_paymentEncode henc hpz rest
    have hnb : ¬(¬rv = true ∧ o = BURN_OUTPUT) := by
      intro hc
      exact h4 ⟨by simpa using hc.1, by simp [hc.2]⟩
    unfold burnPaymentDecode
    simp only [hpd]
    simp
    intro hrv hob
    exact hnb ⟨by simp [hrv], hob⟩

theorem burnDecodeBulkF_congr :
    ∀ (fuel : Nat) {fuel' : Nat} {bs : List Nat}, bs.length ≤ fuel →
      bs.length ≤ fuel' → burnDecodeBulkF fuel bs = burnDecodeBulkF fuel' bs := by
  intro fuel
  induction fuel with
  | zero =>
    intro fuel' bs h h'
    have h0 : bs = [] := by
      cases bs
      · rfl
      · simp at h
    subst h0
    cases fuel'
    · rfl
    · simp [burnDecodeBulkF, burnPaymentDecode, paymentDecode]
  | succ f ih =>
    intro fuel' bs h h'
    cases fuel' with
    | zero =>
      have h0 : bs = [] := by
        cases bs
        · rfl
        · simp at h'
      subst h0
      simp [burnDecodeBulkF, burnPaymentDecode, paymentDecode]
    | succ f' =>
      simp only [burnDecodeBulkF]
      cases hd : burnPaymentDecode bs with
      | none => simp only [hd]
      | some v =>
        obtain ⟨p, rest⟩ := v
        simp only [hd]
        have hlt := burnPaymentDecode_length hd
        rw [@ih f' rest (by omega) (by omega)]

theorem burnDecodeBulk_none {bs : List Nat} (h : burnPaymentDecode bs = none) :
    burnDecodeBulk bs = [] := by
  unfold burnDecodeBulk
  cases bs with
  | nil => rfl
  | cons b tl => simp [burnDecodeBulkF, h]

theorem burnDecodeBulk_some {bs rest : List Nat} {p : BurnPayment}
    (h : burnPaymentDecode bs = some (p, rest)) :
    burnDecodeBulk bs = p :: burnDecodeBulk rest := by
  have hlen := burnPaymentDecode_length h
  unfold burnDecodeBulk
  cases bs with
  | nil => simp [burnPaymentDecode, paymentDecode] at h
  | cons b tl =>
    simp only [List.length_cons, burnDecodeBulkF, h]
    congr 1
    have hle : rest.length ≤ tl.length := by
      simp only [List.length_cons] at hlen
      omega
    exact burnDecodeBulkF_congr tl.length hle le_rfl

theorem burnDecodeBulk_burnEncodeBulk {ps : List BurnPayment} {bytes : List Nat}
    (henc : burnEncodeBulk ps = .ok bytes)
    (hval : ∀ p ∈ ps, (p.burn = false → p.range.isSome) ∧
      (p.burn = true ∨ p.range.getD false = true ∨ p.output.getD 0 ≠ 0)) :
    burnDecodeBulk bytes = ps := by
  induction ps generalizing bytes with
  | nil =>
    simp only [burnEncodeBulk, Except.ok.injEq] at henc
    subst henc
    exact burnDecodeBulk_none rfl
  | cons p tl ih =>
    simp only [burnEncodeBulk] at henc
    cases hp : burnPaymentEncode p with
    | error e => rw [hp] at henc; exact absurd henc (by simp)
    | ok b =>
      rw [hp] at henc
      cases ht : burnEncodeBulk tl with
      | error e => rw [ht] at henc; exact absurd henc (by simp)
      | ok bs =>
        rw [ht] at henc
        simp only [Except.ok.injEq] at henc
        subst henc
        have hv := hval p (List.mem_cons_self p tl)
        rw [burnDecodeBulk_some
          (burnPaymentDecode_burnPaymentEncode hp hv.1 hv.2 bs)]
        rw [ih ht (fun q hq => hval q (List.mem_cons_of_mem p hq))]

theorem issueFlagsDecode_at (l : Bool) (i : Nat) (hi : i < 3) :
    ∀ d < 8,
      issueFlagsDecode ((((d <<< 1) ||| (if l then 1 else 0)) <<< 2 ||| i) <<< 2)
        = (d, l, aggregationPolicies[i]?) := by
  cases l <;> interval_cases i <;> decide

theorem issueFlagsDecode_issueFlagsEncode {d : Nat} {l : Bool} {ap : String} {b : Nat}
    (henc : issueFlagsEncode d l ap = .ok b) :
    issueFlagsDecode b = (d, l, some ap) := by
  unfold issueFlagsEncode at henc
  split at henc
  · exact absurd henc (by simp)
  rename_i hd
  unfold policyIndex at henc
  by_cases hap0 : ap = "aggregatable"
  · rw [if_pos hap0] at henc
    simp only [Except.ok.injEq] at henc
    subst henc
    rw [issueFlagsDecode_at l 0 (by omega) d (by omega)]
    simp [aggregationPolicies, hap0]
  · rw [if_neg hap0] at henc
    by_cases hap1 : ap = "hybrid"
    · rw [if_pos hap1] at henc
      simp only [Except.ok.injEq] at henc
      subst henc
      rw [issueFlagsDecode_at l 1 (by omega) d (by omega)]
      simp [aggregationPolicies, hap1]
    · rw [if_neg hap1] at henc
      by_cases hap2 : ap = "dispersed"
      · rw [if_pos hap2] at henc
        simp only [Except.ok.injEq] at henc
        subst henc
        rw [issueFlagsDecode_at l 2 (by omega) d (by omega)]
        simp [aggregationPolicies, hap2]
      · rw [if_neg hap2] at henc
        exact absurd henc (by simp)

theorem take_concat (B : List Nat) (f : Nat) :
    (B ++ [f]).take ((B ++ [f]).length - 1) = B := by
  have h : (B ++ [f]).length - 1 = B.length := by simp
  rw [h, List.take_left]

theorem issuanceDecode_concat (B : List Nat) (f : Nat) :
    issuanceDecode (B ++ [f]) = issuanceDecodeBody f B := by
  unfold issuanceDecode
  rw [List.getLast?_concat, take_concat]

theorem decodeAmountByVersion_id {v n d : Nat} (h : v = 1 → d = 0) :
    decodeAmountByVersion v n d = n := by
  unfold decodeAmountByVersion
  split
  · rename_i hv
    rw [h hv]
    simp
  · rfl

theorem issuanceDecodeBody_op4 {fb dv : Nat} {lk : Bool} {ap : Option String}
    (hfd : issueFlagsDecode fb = (dv, lk, ap))
    (p1 p2 v : Nat) {th : List Nat} (hlen : th.length = 20)
    (n : Nat) (payb : List Nat) :
    issuanceDecodeBody fb (p1 :: p2 :: v :: 4 :: (th ++ (sffcEncode n ++ payb)))
      = .ok { divisibility := dv, lockStatus := lk, aggregationPolicy := ap,
              protocol := p1 * 256 + p2, version := v, torrentHash := some th,
              sha2 := none, noRules := none, multiSig := [],
              amount := decodeAmountByVersion v n dv,
              payments := decodeBulk payb } := by
  unfold issuanceDecodeBody
  rw [hfd]
  norm_num [List.take_left' hlen, List.drop_left' hlen, sffcDecode_sffcEncode]

theorem issuanceDecodeBody_op5 {fb dv : Nat} {lk : Bool} {ap : Option String}
    (hfd : issueFlagsDecode fb = (dv, lk, ap))
    (p1 p2 v : Nat) (n : Nat) (payb : List Nat) :
    issuanceDecodeBody fb (p1 :: p2 :: v :: 5 :: (sffcEncode n ++ payb))
      = .ok { divisibility := dv, lockStatus := lk, aggregationPolicy := ap,
              protocol := p1 * 256 + p2, version := v, torrentHash := none,
              sha2 := none, noRules := some true, multiSig := [],
              amount := decodeAmountByVersion v n dv,
              payments := decodeBulk payb } := by
  unfold issuanceDecodeBody
  rw [hfd]
  norm_num [sffcDecode_sffcEncode]

theorem issuanceDecodeBody_op6 {fb dv : Nat} {lk : Bool} {ap : Option String}
    (hfd : issueFlagsDecode fb = (dv, lk, ap))
    (p1 p2 v : Nat) (n : Nat) (payb : List Nat) :
    issuanceDecodeBody fb (p1 :: p2 :: v :: 6 :: (sffcEncode n ++ payb))
      = .ok { divisibility := dv, lockStatus := lk, aggregationPolicy := ap,
              protocol := p1 * 256 + p2, version := v, torrentHash := none,
              sha2 := none, noRules := some false, multiSig := [],
              amount := decodeAmountByVersion v n dv,
              payments := decodeBulk payb } := by
  unfold issuanceDecodeBody
  rw [hfd]
  norm_num [sffcDecode_sffcEncode]

theorem issuanceDecodeBody_op1 {fb dv : Nat} {lk : Bool} {ap : Option String}
    (hfd : issueFlagsDecode fb = (dv, lk, ap))
    (p1 p2 v : Nat) {th s2 : List Nat}
    (hlen : th.length = 20) (hlen2 : s2.length = 32)
    (n : Nat) (payb : List Nat) :
    issuanceDecodeBody fb (p1 :: p2 :: v :: 1 :: (th ++ (s2 ++ (sffcEncode n ++ payb))))
      = .ok { divisibility := dv, lockStatus := lk, aggregationPolicy := ap,
              protocol := p1 * 256 + p2, version := v, torrentHash := some th,
              sha2 := some s2, noRules := none, multiSig := [],
              amount := decodeAmountByVersion v n dv,
              payments := decodeBulk payb } := by
  unfold issuanceDecodeBody
  rw [hfd]
  norm_num [List.take_left' hlen, List.drop_left' hlen,
    List.take_left' hlen2, List.drop_left' hlen2, sffcDecode_sffcEncode]

theorem issuance_roundtrip {r : IssuanceRecord} {byteSize : Nat} {bytes : List Nat}
    (henc : issuanceEncode r byteSize = .ok (bytes, []))
    (hproto : r.protocol < 65536)
    (hver : r.version < 256)
    (hv1 : r.version = 1 → r.divisibility = 0)
    (hth : ∀ th ∈ r.torrentHash, th.length = 20)
    (hs2 : ∀ s ∈ r.sha2, s.length = 32)
    (hpay : ∀ p ∈ r.payments,
      p.skip = true ∨ p.range = true ∨ p.percent = true ∨ p.output ≠ 0) :
    ∃ d, issuanceDecode bytes = .ok d ∧
      d.protocol = r.protocol ∧ d.version = r.version ∧
      d.divisibility = r.divisibility ∧ d.lockStatus = r.lockStatus ∧
      d.aggregationPolicy = some r.aggregationPolicy ∧
      d.amount = r.amount ∧ d.torrentHash = r.torrentHash ∧
      d.sha2 = r.sha2 ∧ d.payments = r.payments := by
  obtain ⟨am, lk, dv, ap, pr, vr, pays, tor, sha, nr⟩ := r
  simp only at henc hproto hver hv1 hth hs2 hpay ⊢
  unfold issuanceEncode at henc
  simp only at henc
  split at henc
  · exact absurd henc (by simp)
  split at henc
  · exact absurd henc (by simp)
  split at henc
  · exact absurd henc (by simp)
  split at henc
  · exact absurd henc (by simp)
  split at henc
  · exact absurd henc (by simp)
  cases hpb : encodeBulk pays with
  | error e => rw [hpb] at henc; exact absurd henc (by simp)
  | ok payb =>
  rw [hpb] at henc
  cases hfl : issueFlagsEncode dv lk ap with
  | error e => rw [hfl] at henc; exact absurd henc (by simp)
  | ok fb =>
  rw [hfl] at henc
  simp only at henc
  split at henc
  · exact absurd henc (by simp)
  have hflrt := issueFlagsDecode_issueFlagsEncode hfl
  have hvb : vr % 256 = vr := Nat.mod_eq_of_lt hver
  have hdb := decodeBulk_encodeBulk hpb hpay
  cases sha with
  | none =>
    cases tor with
    | some th =>
      simp only at henc
      split at henc
      · exact absurd henc (by simp)
      simp only [Except.ok.injEq, Prod.mk.injEq] at henc
      obtain ⟨hbytes, -⟩ := henc
      subst hbytes
      have hlen : th.length = 20 := hth th rfl
      have hshape :
          protocolBytes pr ++ [vr % 256] ++ [4] ++ th ++
              (sffcEncode am ++ payb ++ [fb])
            = ((pr / 256 % 256) :: (pr % 256) :: (vr % 256) :: 4 ::
                (th ++ (sffcEncode am ++ payb))) ++ [fb] := by
        simp [protocolBytes, List.append_assoc]
      rw [hshape, issuanceDecode_concat,
        issuanceDecodeBody_op4 hflrt _ _ _ hlen am payb]
      exact ⟨_, rfl, by simp; omega, hvb, rfl, rfl, rfl,
        decodeAmountByVersion_id (fun hv => hv1 (by omega)), rfl, rfl, hdb⟩
    | none =>
      simp only at henc
      simp only [Except.ok.injEq, Prod.mk.injEq] at henc
      obtain ⟨hbytes, -⟩ := henc
      subst hbytes
      cases nr with
      | true =>
        simp only [if_true] at *
        have hshape :
            protocolBytes pr ++ [vr % 256] ++ [5] ++
                (sffcEncode am ++ payb ++ [fb])
              = ((pr / 256 % 256) :: (pr % 256) :: (vr % 256) :: 5 ::
                  (sffcEncode am ++ payb)) ++ [fb] := by
          simp [protocolBytes, List.append_assoc]
        rw [hshape, issuanceDecode_concat,
          issuanceDecodeBody_op5 hflrt _ _ _ am payb]
        exact ⟨_, rfl, by simp; omega, hvb, rfl, rfl, rfl,
          decodeAmountByVersion_id (fun hv => hv1 (by omega)), rfl, rfl, hdb⟩
      | false =>
        simp only [Bool.false_eq_true, if_false] at *
        have hshape :
            protocolBytes pr ++ [vr % 256] ++ [6] ++
                (sffcEncode am ++ payb ++ [fb])
              = ((pr / 256 % 256) :: (pr % 256) :: (vr % 256) :: 6 ::
                  (sffcEncode am ++ payb)) ++ [fb] := by
          simp [protocolBytes, List.append_assoc]
        rw [hshape, issuanceDecode_concat,
          issuanceDecodeBody_op6 hflrt _ _ _ am payb]
        exact ⟨_, rfl, by simp; omega, hvb, rfl, rfl, rfl,
          decodeAmountByVersion_id (fun hv => hv1 (by omega)), rfl, rfl, hdb⟩
  | some s2 =>
    cases tor with
    | none => simp only at henc; exact absurd henc (by simp)
    | some th =>
      simp only at henc
      split at henc
      · split at henc
        · simp only [Except.ok.injEq, Prod.mk.injEq] at henc
          obtain ⟨hbytes, -⟩ := henc
          subst hbytes
          have hlen : th.length = 20 := hth th rfl
          have hlen2 : s2.length = 32 := hs2 s2 rfl
          have hshape :
              protocolBytes pr ++ [vr % 256] ++ [1] ++ th ++ s2 ++
                  (sffcEncode am ++ payb ++ [fb])
                = ((pr / 256 % 256) :: (pr % 256) :: (vr % 256) :: 1 ::
                    (th ++ (s2 ++ (sffcEncode am ++ payb)))) ++ [fb] := by
            simp [protocolBytes, List.append_assoc]
          rw [hshape, issuanceDecode_concat,
            issuanceDecodeBody_op1 hflrt _ _ _ hlen hlen2 am payb]
          exact ⟨_, rfl, by simp; omega, hvb, rfl, rfl, rfl,
            decodeAmountByVersion_id (fun hv => hv1 (by omega)), rfl, rfl, hdb⟩
        · exact absurd henc (by simp)
      · exact absurd henc (by simp)

theorem transferDecode_both_plain (p1 p2 v : Nat) {th s2 : List Nat}
    (h20 : th.length = 20) (h32 : s2.length = 32) (payb : List Nat) :
    transferDecode (p1 :: p2 :: v :: 0x10 :: (th ++ (s2 ++ payb)))
      = .ok { protocol := p1 * 256 + p2, version := v, torrentHash := some th,
              sha2 := some s2, noRules := none, multiSig := [],
              payments := .plain (decodeBulk payb) } := by
  unfold transferDecode
  simp only [show ((0x10 : Nat) &&& 0xf0) = 0x10 from by decide]
  norm_num [List.take_left' h20, List.drop_left' h20,
    List.take_left' h32, List.drop_left' h32]

theorem transferDecode_both_burn (p1 p2 v : Nat) {th s2 : List Nat}
    (h20 : th.length = 20) (h32 : s2.length = 32) (payb : List Nat) :
    transferDecode (p1 :: p2 :: v :: 0x20 :: (th ++ (s2 ++ payb)))
      = .ok { protocol := p1 * 256 + p2, version := v, torrentHash := some th,
              sha2 := some s2, noRules := none, multiSig := [],
              payments := .burn (burnDecodeBulk payb) } := by
  unfold transferDecode
  simp only [show ((0x20 : Nat) &&& 0xf0) = 0x20 from by decide]
  norm_num [List.take_left' h20, List.drop_left' h20,
    List.take_left' h32, List.drop_left' h32]

theorem transferDecode_torrent_plain_rules (p1 p2 v : Nat) {th : List Nat}
    (h20 : th.length = 20) (payb : List Nat) :
    transferDecode (p1 :: p2 :: v :: 0x13 :: (th ++ payb))
      = .ok { protocol := p1 * 256 + p2, version := v, torrentHash := some th,
              sha2 := none, noRules := some false, multiSig := [],
              payments := .plain (decodeBulk payb) } := by
  unfold transferDecode
  simp only [show ((0x13 : Nat) &&& 0xf0) = 0x10 from by decide]
  norm_num [List.take_left' h20, List.drop_left' h20]

theorem transferDecode_torrent_plain_norules (p1 p2 v : Nat) {th : List Nat}
    (h20 : th.length = 20) (payb : List Nat) :
    transferDecode (p1 :: p2 :: v :: 0x14 :: (th ++ payb))
      = .ok { protocol := p1 * 256 + p2, version := v, torrentHash := some th,
              sha2 := none, noRules := some true, multiSig := [],
              payments := .plain (decodeBulk payb) } := by
  unfold transferDecode
  simp only [show ((0x14 : Nat) &&& 0xf0) = 0x10 from by decide]
  norm_num [List.take_left' h20, List.drop_left' h20]

theorem transferDecode_torrent_burn_rules (p1 p2 v : Nat) {th : List Nat}
    (h20 : th.length = 20) (payb : List Nat) :
    transferDecode (p1 :: p2 :: v :: 0x23 :: (th ++ payb))
      = .ok { protocol := p1 * 256 + p2, version := v, torrentHash := some th,
              sha2 := none, noRules := some false, multiSig := [],
              payments := .burn (burnDecodeBulk payb) } := by
  unfold transferDecode
  simp only [show ((0x23 : Nat) &&& 0xf0) = 0x20 from by decide]
  norm_num [List.take_left' h20, List.drop_left' h20]

theorem transferDecode_torrent_burn_norules (p1 p2 v : Nat) {th : List Nat}
    (h20 : th.length = 20) (payb : List Nat) :
    transferDecode (p1 :: p2 :: v :: 0x24 :: (th ++ payb))
      = .ok { protocol := p1 * 256 + p2, version := v, torrentHash := some th,
              sha2 := none, noRules := some true, multiSig := [],
              payments := .burn (burnDecodeBulk payb) } := by
  unfold transferDecode
  simp only [show ((0x24 : Nat) &&& 0xf0) = 0x20 from by decide]
  norm_num [List.take_left' h20, List.drop_left' h20]

theorem transferDecode_none_plain (p1 p2 v : Nat) (payb : List Nat) :
    transferDecode (p1 :: p2 :: v :: 0x15 :: payb)
      = .ok { protocol := p1 * 256 + p2, version := v, torrentHash := none,
              sha2 := none, noRules := none, multiSig := [],
              payments := .plain (decodeBulk payb) } := by
  unfold transferDecode
  simp only [show ((0x15 : Nat) &&& 0xf0) = 0x10 from by decide]
  norm_num

theorem transferDecode_none_burn (p1 p2 v : Nat) (payb : List Nat) :
    transferDecode (p1 :: p2 :: v :: 0x25 :: payb)
      = .ok { protocol := p1 * 256 + p2, version := v, torrentHash := none,
              sha2 := none, noRules := none, multiSig := [],
              payments := .burn (burnDecodeBulk payb) } := by
  unfold transferDecode
  simp only [show ((0x25 : Nat) &&& 0xf0) = 0x20 from by decide]
  norm_num

theorem transfer_roundtrip {r : TransferRecord} {byteSize : Nat} {bytes : List Nat}
    (henc : transferEncode r byteSize = .ok (bytes, []))
    (hproto : r.protocol < 65536)
    (hver : r.version < 256)
    (hth : ∀ th ∈ r.torrentHash, th.length = 20)
    (hs2 : ∀ s ∈ r.sha2, s.length = 32)
    (hpay : match r.payments with
      | .plain ps => ∀ p ∈ ps,
          p.skip = true ∨ p.range = true ∨ p.percent = true ∨ p.output ≠ 0
      | .burn ps => ∀ p ∈ ps, (p.burn = false → p.range.isSome) ∧
          (p.burn = true ∨ p.range.getD false = true ∨ p.output.getD 0 ≠ 0)) :
    ∃ d, transferDecode bytes = .ok d ∧
      d.protocol = r.protocol ∧ d.version = r.version ∧
      d.torrentHash = r.torrentHash ∧ d.sha2 = r.sha2 ∧
      d.payments = r.payments := by
  obtain ⟨tp, pr, vr, sha, tor, nr⟩ := r
  simp only at henc hproto hver hth hs2 hpay ⊢
  have hvb : vr % 256 = vr := Nat.mod_eq_of_lt hver
  cases tp with
  | plain ps =>
    unfold transferEncode at henc
    simp only at henc
    cases hpb : encodeBulk ps with
    | error e => rw [hpb] at henc; exact absurd henc (by simp)
    | ok payb =>
    rw [hpb] at henc
    simp only at henc
    split at henc
    · exact absurd henc (by simp)
    have hdb := decodeBulk_encodeBulk hpb hpay
    cases sha with
    | none =>
      cases tor with
      | some th =>
        have hlen : th.length = 20 := hth th rfl
        cases nr with
        | true =>
          simp only [if_true] at henc
          split at henc
          · exact absurd henc (by simp)
          simp only [Except.ok.injEq, Prod.mk.injEq] at henc
          obtain ⟨hbytes, -⟩ := henc
          subst hbytes
          have hshape : protocolBytes pr ++ [vr % 256] ++ [16 + 4] ++ th ++ payb
              = (pr / 256 % 256) :: (pr % 256) :: (vr % 256) :: 20 :: (th ++ payb) := by
            norm_num [protocolBytes]
          rw [hshape, transferDecode_torrent_plain_norules _ _ _ hlen payb]
          exact ⟨_, rfl, by simp; omega, hvb, rfl, rfl, by simp [hdb]⟩
        | false =>
          simp only [Bool.false_eq_true, if_false] at henc
          split at henc
          · exact absurd henc (by simp)
          simp only [Except.ok.injEq, Prod.mk.injEq] at henc
          obtain ⟨hbytes, -⟩ := henc
          subst hbytes
          have hshape : protocolBytes pr ++ [vr % 256] ++ [16 + 3] ++ th ++ payb
              = (pr / 256 % 256) :: (pr % 256) :: (vr % 256) :: 19 :: (th ++ payb) := by
            norm_num [protocolBytes]
          rw [hshape, transferDecode_torrent_plain_rules _ _ _ hlen payb]
          exact ⟨_, rfl, by simp; omega, hvb, rfl, rfl, by simp [hdb]⟩
      | none =>
        simp only [Except.ok.injEq, Prod.mk.injEq] at henc
        obtain ⟨hbytes, -⟩ := henc
        subst hbytes
        have hshape : protocolBytes pr ++ [vr % 256] ++ [16 + 5] ++ payb
            = (pr / 256 % 256) :: (pr % 256) :: (vr % 256) :: 21 :: payb := by
          norm_num [protocolBytes]
        rw [hshape, transferDecode_none_plain _ _ _ payb]
        exact ⟨_, rfl, by simp; omega, hvb, rfl, rfl, by simp [hdb]⟩
    | some s2 =>
      cases tor with
      | none => simp only at henc; exact absurd henc (by simp)
      | some th =>
        have hlen : th.length = 20 := hth th rfl
        have hlen2 : s2.length = 32 := hs2 s2 rfl
        simp only at henc
        split at henc
        · split at henc
          · simp only [Except.ok.injEq, Prod.mk.injEq] at henc
            obtain ⟨hbytes, -⟩ := henc
            subst hbytes
            have hshape : protocolBytes pr ++ [vr % 256] ++ [16] ++ th ++ s2 ++ payb
                = (pr / 256 % 256) :: (pr % 256) :: (vr % 256) :: 16 :: (th ++ (s2 ++ payb)) := by
              norm_num [protocolBytes]
            rw [hshape, transferDecode_both_plain _ _ _ hlen hlen2 payb]
            exact ⟨_, rfl, by simp; omega, hvb, rfl, rfl, by simp [hdb]⟩
          · exact absurd henc (by simp)
        · exact absurd henc (by simp)
  | burn ps =>
    unfold transferEncode at henc
    simp only at henc
    cases hpb : burnEncodeBulk ps with
    | error e => rw [hpb] at henc; exact absurd henc (by simp)
    | ok payb =>
    rw [hpb] at henc
    simp only at henc
    split at henc
    · exact absurd henc (by simp)
    have hdb := burnDecodeBulk_burnEncodeBulk hpb hpay
    cases sha with
    | none =>
      cases tor with
      | some th =>
        have hlen : th.length = 20 := hth th rfl
        cases nr with
        | true =>
          simp only [if_true] at henc
          split at henc
          · exact absurd henc (by simp)
          simp only [Except.ok.injEq, Prod.mk.injEq] at henc
          obtain ⟨hbytes, -⟩ := henc
          subst hbytes
          have hshape : protocolBytes pr ++ [vr % 256] ++ [32 + 4] ++ th ++ payb
              = (pr / 256 % 256) :: (pr % 256) :: (vr % 256) :: 36 :: (th ++ payb) := by
            norm_num [protocolBytes]
          rw [hshape, transferDecode_torrent_burn_norules _ _ _ hlen payb]
          exact ⟨_, rfl, by simp; omega, hvb, rfl, rfl, by simp [hdb]⟩
        | false =>
          simp only [Bool.false_eq_true, if_false] at henc
          split at henc
          · exact absurd henc (by simp)
          simp only [Except.ok.injEq, Prod.mk.injEq] at henc
          obtain ⟨hbytes, -⟩ := henc
          subst hbytes
          have hshape : protocolBytes pr ++ [vr % 256] ++ [32 + 3] ++ th ++ payb
              = (pr / 256 % 256) :: (pr % 256) :: (vr % 256) :: 35 :: (th ++ payb) := by
            norm_num [protocolBytes]
          rw [hshape, transferDecode_torrent_burn_rules _ _ _ hlen payb]
          exact ⟨_, rfl, by simp; omega, hvb, rfl, rfl, by simp [hdb]⟩
      | none =>
        simp only [Except.ok.injEq, Prod.mk.injEq] at henc
        obtain ⟨hbytes, -⟩ := henc
        subst hbytes
        have hshape : protocolBytes pr ++ [vr % 256] ++ [32 + 5] ++ payb
            = (pr / 256 % 256) :: (pr % 256) :: (vr % 256) :: 37 :: payb := by
          norm_num [protocolBytes]
        rw [hshape, transferDecode_none_burn _ _ _ payb]
        exact ⟨_, rfl, by simp; omega, hvb, rfl, rfl, by simp [hdb]⟩
    | some s2 =>
      cases tor with
      | none => simp only at henc; exact absurd henc (by simp)
      | some th =>
        have hlen : th.length = 20 := hth th rfl
        have hlen2 : s2.length = 32 := hs2 s2 rfl
        simp only at henc
        split at henc
        · split at henc
          · simp only [Except.ok.injEq, Prod.mk.injEq] at henc
            obtain ⟨hbytes, -⟩ := henc
            subst hbytes
            have hshape : protocolBytes pr ++ [vr % 256] ++ [32] ++ th ++ s2 ++ payb
                = (pr / 256 % 256) :: (pr % 256) :: (vr % 256) :: 32 :: (th ++ (s2 ++ payb)) := by
              norm_num [protocolBytes]
            rw [hshape, transferDecode_both_burn _ _ _ hlen hlen2 payb]
            exact ⟨_, rfl, by simp; omega, hvb, rfl, rfl, by simp [hdb]⟩
          · exact absurd henc (by simp)
        · exact absurd henc (by simp)

/-! Claim theorems. -/

/-- C3: the claim states that the issuance missing-field check passes
whenever amount, lockStatus, aggregationPolicy, protocolId and version are
all set, including lockStatus set to false.  The code uses a JavaScript
truthiness check, so a record with lockStatus explicitly set to false is
rejected with the missing-field error ("lockStatus must be set") even
though the field is set; the claim matches the intent (the library itself
builds lockStatus = false issuances for reissuable assets and keeps an
unlocked-padding table for them) and the code contradicts it. -/
theorem claim_C3_lockStatus_false_rejected :
    issuanceEncode
      { amount := 1, lockStatus := false, divisibility := 0,
        aggregationPolicy := "aggregatable", protocol := 0x4441, version := 2,
        payments := [], torrentHash := none, sha2 := none, noRules := false } 80
      = .error (.missingField "lockStatus") := by decide

/-- C2 counterexample: a four-byte record whose protocol field is 0x1234
(not the protocol constant 0x4441) decodes successfully through
Asset.prototype.fromBuffer; no rejection of a non-matching protocolId
exists anywhere on the decode path. -/
theorem claim_C2_counterexample :
    (0x1234 : Nat) ≠ 0x4441 ∧
    assetFromBuffer [0x12, 0x34, 0x02, 0x15]
      = .ok { protocol := 0x1234, version := 2, multiSig := [], payments := [],
              type := "transfer", lockStatus := true,
              aggregationPolicy := some "aggregatable", divisibility := 0,
              amount := none } := by decide

/-- C2 amended: decoding never inspects the protocolId field; it
dispatches on the opcode byte alone and reports whatever 16-bit protocol
value the record carries.  Shown here for the no-hash transfer opcode
0x15 with an arbitrary protocol field. -/
theorem claim_C2_amended (p1 p2 v : Nat) :
    assetFromBuffer [p1, p2, v, 0x15]
      = .ok { protocol := p1 * 256 + p2, version := v, multiSig := [],
              payments := [], type := "transfer", lockStatus := true,
              aggregationPolicy := some "aggregatable", divisibility := 0,
              amount := none } := by
  unfold assetFromBuffer
  norm_num
  rw [show ([p1, p2, v, 0x15] : List Nat) = p1 :: p2 :: v :: 0x15 :: [] from rfl,
    transferDecode_none_plain p1 p2 v []]
  simp [Except.map, paymentsSkipToInput, decodeBulk, decodeBulkF, skipToInputFrom]

/-- C10: a payment with output index 0, positive amount and no
skip/range/percent flags encodes to a record whose first byte is 0x00;
single-payment decode rejects any record whose first byte is 0x00 (the
checkState treats the zero byte as missing), and bulk decode therefore
treats such a record as the end of the list, dropping it and everything
after it. -/
theorem claim_C10_zero_first_byte (a : Nat) (ha : a ≠ 0) (rest : List Nat) :
    paymentEncode
      { skip := false, range := false, percent := false,
        output := 0, amount := a } = .ok (0 :: sffcEncode a)
    ∧ paymentDecode (0 :: rest) = none
    ∧ decodeBulk (0 :: rest) = [] := by
  refine ⟨?_, rfl, decodeBulk_none rfl⟩
  unfold paymentEncode
  rw [if_neg ha]
  norm_num [bitLen]

/-- C10 witness at amount 1 with trailing bytes. -/
theorem claim_C10_zero_first_byte_witness :
    paymentEncode
      { skip := false, range := false, percent := false,
        output := 0, amount := 1 } = .ok (0 :: sffcEncode 1)
    ∧ paymentDecode (0 :: [1, 1]) = none
    ∧ decodeBulk (0 :: [1, 1]) = [] :=
  claim_C10_zero_first_byte 1 (by decide) [1, 1]

/-- C8: under the burn-aware payment codec, a non-burn payment with
output 31 and range false fails with the reserved-output-value error; a
payment with output 8191 and range true encodes and decodes back
unchanged; output 8192 with range true fails out-of-bounds. -/
theorem claim_C8_burn_codec_bounds (a : Nat) (ha : a ≠ 0) :
    burnPaymentEncode
      { amount := a, output := some 31, range := some false, burn := false }
      = .error .reservedOutputValue
    ∧ burnPaymentEncode
        { amount := a, output := some 8191, range := some true, burn := false }
        = .ok (95 :: 255 :: sffcEncode a)
    ∧ burnPaymentDecode (95 :: 255 :: sffcEncode a)
        = some ({ amount := a, output := some 8191, range := some true,
                  burn := false }, [])
    ∧ burnPaymentEncode
        { amount := a, output := some 8192, range := some true, burn := false }
        = .error .outputOutOfBounds := by
  refine ⟨?_, ?_, ?_, ?_⟩
  · unfold burnPaymentEncode
    norm_num [BURN_OUTPUT]
  · unfold burnPaymentEncode paymentEncode
    rw [if_neg (by norm_num [BURN_OUTPUT])]
    norm_num [BURN_OUTPUT, show bitLen 8191 = 13 from by decide]
    rw [if_neg ha]
    norm_num [show ((31 : Nat) ||| 64) = 95 from by decide]
  · have hs := sffcDecode_sffcEncode a []
    rw [List.append_nil] at hs
    unfold burnPaymentDecode paymentDecode
    norm_num [show ((95 : Nat) &&& 0xe0) = 64 from by decide,
      show ((64 : Nat) &&& 0x80) = 0 from by decide,
      show ((64 : Nat) &&& 0x40) = 64 from by decide,
      show ((64 : Nat) &&& 0x20) = 0 from by decide,
      show ((95 : Nat) &&& 0x1f) = 31 from by decide, hs, BURN_OUTPUT]
  · unfold burnPaymentEncode paymentEncode
    rw [if_neg (by norm_num [BURN_OUTPUT])]
    norm_num [BURN_OUTPUT, show bitLen 8192 = 14 from by decide]
    exact fun h0 => absurd h0 ha

/-- C8 witness at amount 1. -/
theorem claim_C8_burn_codec_bounds_witness :
    burnPaymentEncode
      { amount := 1, output := some 31, range := some false, burn := false }
      = .error .reservedOutputValue
    ∧ burnPaymentEncode
        { amount := 1, output := some 8191, range := some true, burn := false }
        = .ok (95 :: 255 :: sffcEncode 1)
    ∧ burnPaymentDecode (95 :: 255 :: sffcEncode 1)
        = some ({ amount := 1, output := some 8191, range := some true,
                  burn := false }, [])
    ∧ burnPaymentEncode
        { amount := 1, output := some 8192, range := some true, burn := false }
        = .error .outputOutOfBounds :=
  claim_C8_burn_codec_bounds 1 (by decide)

/-- The three outputs of the C9 scenario: 10, 20 and 5 units of asset A. -/
def utxoTen : Utxo := { txid := "a", index := 0, assets := [{ assetId := "A", amount := 10 }] }

/-- Second output of the C9 scenario. -/
def utxoTwenty : Utxo := { txid := "b", index := 1, assets := [{ assetId := "A", amount := 20 }] }

/-- Third output of the C9 scenario. -/
def utxoFive : Utxo := { txid := "c", index := 2, assets := [{ assetId := "A", amount := 5 }] }

/-- C9: with outputs holding 10, 20 and 5 units of the target asset and a
need of 25, no single output qualifies, the greedy fallback sorts the
pool descending and selects exactly the outputs holding 20 and 10; with a
need of 40 the selection fails with the insufficient-asset-funds error. -/
theorem claim_C9_greedy_fallback :
    selectAssetUtxos [utxoTen, utxoTwenty, utxoFive] [("A", 25)] "A"
      = .ok [utxoTwenty, utxoTen]
    ∧ selectAssetUtxos [utxoTen, utxoTwenty, utxoFive] [("A", 40)] "A"
      = .error .insufficientAssetFunds := by
  constructor
  · simp [selectAssetUtxos, findBestMatchByNeededAssets,
      findBestGreaterOrEqualAmountUtxo, accumulateUtxos, getUtxoAssetAmount,
      utxoTen, utxoTwenty, utxoFive, List.mergeSort]
  · simp [selectAssetUtxos, findBestMatchByNeededAssets,
      findBestGreaterOrEqualAmountUtxo, accumulateUtxos, getUtxoAssetAmount,
      utxoTen, utxoTwenty, utxoFive, List.mergeSort]

/-- A simple caller-facing payment used by concrete transform scenarios. -/
def inPay (i : Nat) : InPayment :=
  { input := i, amount := 1, output := some 1, range := false,
    percent := false, burn := false }

/-- C4 counterexample: for two payments with the same inputIndex the
claim predicts skip flags [true, false] (the first payment is not last
and the next does not have a strictly greater inputIndex, so the
"unless" clause does not apply); the code assigns skip = true only when
the next payment has a strictly greater inputIndex, producing
[false, false]. -/
theorem claim_C4_counterexample :
    (paymentsInputToSkip [inPay 0, inPay 0]).map (fun p => p.skip)
      ≠ [true, false]
    ∧ (paymentsInputToSkip [inPay 0, inPay 0]).map (fun p => p.skip)
      = [false, false] := by
  constructor <;>
    simp [paymentsInputToSkip, assignSkips, toSkip, inPay, List.mergeSort]

theorem assignSkips_get? (ps : List InPayment) (i : Nat) :
    ((assignSkips ps).get? i).map (fun p => p.skip)
      = (ps.get? i).map (fun p =>
          match ps.get? (i + 1) with
          | some q => decide (q.input > p.input)
          | none => false) := by
  induction ps generalizing i with
  | nil => simp [assignSkips]
  | cons p tl ih =>
    cases tl with
    | nil =>
      cases i with
      | zero => simp [assignSkips, toSkip]
      | succ j => simp [assignSkips, List.get?_cons_succ]
    | cons q rest =>
      cases i with
      | zero => simp [assignSkips, toSkip]
      | succ j =>
        have := ih j
        simpa [assignSkips, List.get?_cons_succ] using this

/-- C4 amended: for a payment list sorted non-decreasing by inputIndex,
the transform assigns skip = true exactly when the payment is not the
last one and the next payment has a strictly greater inputIndex (the
claim had the condition inverted); equivalently skip = true marks that
the following payment moves to a new input, and skip = false that it
still refers to the same input or that the payment is last. -/
theorem claim_C4_amended (ps : List InPayment)
    (hsorted : ps.Pairwise (fun a b => a.input ≤ b.input)) (i : Nat) :
    ((paymentsInputToSkip ps).get? i).map (fun p => p.skip)
      = (ps.get? i).map (fun p =>
          match ps.get? (i + 1) with
          | some q => decide (q.input > p.input)
          | none => false) := by
  unfold paymentsInputToSkip
  rw [List.mergeSort_of_sorted (hsorted.imp (fun h => by simpa using h))]
  exact assignSkips_get? ps i

/-- C4 witness: two payments on inputs 0 and 0 followed by input 1,
evaluated at position 0. -/
theorem claim_C4_amended_witness :
    ((paymentsInputToSkip [inPay 0, inPay 0, inPay 1]).get? 0).map (fun p => p.skip)
      = ([inPay 0, inPay 0, inPay 1].get? 0).map (fun p =>
          match [inPay 0, inPay 0, inPay 1].get? 1 with
          | some q => decide (q.input > p.input)
          | none => false) :=
  claim_C4_amended [inPay 0, inPay 0, inPay 1] (by decide) 0

/-- C5 counterexample: for the sorted list with inputs [0, 2] — which
already starts at 0, so the renumbering the claim allows is the
identity — the round trip returns inputs [0, 1]: the running counter
compresses the gap instead of restoring the original index 2. -/
theorem claim_C5_counterexample :
    paymentsSkipToInput (paymentsInputToSkip [inPay 0, inPay 2])
      = [inPay 0, inPay 1]
    ∧ [inPay 0, inPay 1] ≠ [inPay 0, inPay 2] := by
  constructor
  · simp [paymentsInputToSkip, paymentsSkipToInput, assignSkips, toSkip,
      skipToInputFrom, inPay, List.mergeSort]
  · simp [inPay]

theorem skipToInputFrom_assignSkips (ps : List InPayment) (k : Nat)
    (hchain : List.Chain' (fun a b => b.input = a.input ∨ b.input = a.input + 1) ps)
    (hhead : ∀ p ∈ ps.head?, p.input = k)
    (hburn : ∀ p ∈ ps, p.burn = true → p.output = none ∧ p.range = false) :
    skipToInputFrom (assignSkips ps) k = ps := by
  induction ps generalizing k with
  | nil => rfl
  | cons p tl ih =>
    have hpk : p.input = k := hhead p rfl
    have hbp := hburn p (List.mem_cons_self p tl)
    have hfirst :
        (if p.burn then
          ({ input := k, amount := p.amount, output := none, range := false,
             percent := p.percent, burn := true } : InPayment)
         else
          { input := k, amount := p.amount, output := p.output, range := p.range,
            percent := p.percent, burn := false }) = p := by
      cases hb : p.burn with
      | true =>
        obtain ⟨ho, hr⟩ := hbp hb
        simp only [if_true]
        cases p
        simp_all
      | false =>
        simp only [Bool.false_eq_true, if_false]
        cases p
        simp_all
    cases tl with
    | nil =>
      simp only [assignSkips, skipToInputFrom, toSkip]
      simpa using hfirst
    | cons q rest =>
      have hstep := (List.chain'_cons.mp hchain).1
      have htail := (List.chain'_cons.mp hchain).2
      simp only [assignSkips, skipToInputFrom, toSkip]
      refine congrArg₂ (· :: ·) (by simpa using hfirst) ?_
      rcases hstep with heq | hsucc
      · have hskip : decide (q.input > p.input) = false := by
          simp [heq]
        rw [hskip]
        simp only [Bool.false_eq_true, if_false]
        exact ih k htail (by intro x hx; cases hx; omega)
          (fun x hx => hburn x (List.mem_cons_of_mem p hx))
      · have hskip : decide (q.input > p.input) = true := by
          simp [hsucc]
        rw [hskip]
        simp only [if_true]
        exact ih (k + 1) htail (by intro x hx; cases hx; omega)
          (fun x hx => hburn x (List.mem_cons_of_mem p hx))

/-- C5 amended: the round trip skipToInput(inputToSkip(P)) returns P
unchanged for payment lists whose inputs, in sorted order, are dense
starting at 0 (the first input is 0 and each next input repeats the
previous one or increases it by exactly 1); the running counter cannot
reproduce gaps, and burn payments must carry no output or range fields
(the wire form drops them). -/
theorem claim_C5_amended (ps : List InPayment)
    (hchain : List.Chain' (fun a b => b.input = a.input ∨ b.input = a.input + 1) ps)
    (hhead : ∀ p ∈ ps.head?, p.input = 0)
    (hburn : ∀ p ∈ ps, p.burn = true → p.output = none ∧ p.range = false) :
    paymentsSkipToInput (paymentsInputToSkip ps) = ps := by
  haveI : IsTrans InPayment (fun a b => a.input ≤ b.input) :=
    ⟨fun a b c hab hbc => le_trans hab hbc⟩
  have hsorted : ps.Pairwise (fun a b => a.input ≤ b.input) := by
    rw [← List.chain'_iff_pairwise]
    exact hchain.imp (fun h => by omega)
  unfold paymentsInputToSkip paymentsSkipToInput
  rw [List.mergeSort_of_sorted (hsorted.imp (fun h => by simpa using h))]
  exact skipToInputFrom_assignSkips ps 0 hchain hhead hburn

/-- C5 witness: inputs [0, 0, 1] round-trip unchanged. -/
theorem claim_C5_amended_witness :
    paymentsSkipToInput (paymentsInputToSkip [inPay 0, inPay 0, inPay 1])
      = [inPay 0, inPay 0, inPay 1] :=
  claim_C5_amended [inPay 0, inPay 0, inPay 1]
    (by simp [List.chain'_cons, inPay]) (by decide) (by decide)

/-- The issuance of the C6 and C7 scenarios: both hashes present, no
payments, base wire size 7 bytes. -/
def hashRecord : IssuanceRecord :=
  { amount := 1, lockStatus := true, divisibility := 0,
    aggregationPolicy := "aggregatable", protocol := 0x4441, version := 2,
    payments := [], torrentHash := some (List.replicate 20 0xaa),
    sha2 := some (List.replicate 32 0xbb), noRules := false }

/-- C6 counterexample: with a byte budget that fits the torrent hash but
not both hashes, encode embeds the torrent hash under opcode 0x02 (sha2
external), not 0x04 as the claim states; the leftover is exactly the
sha2 hash.  The 0x04 opcode is the no-sha2 low-security layout selected
only when the record has no sha2 at all. -/
theorem claim_C6_counterexample :
    issuanceEncode hashRecord 40
      = .ok ([68, 65, 2, 2] ++ List.replicate 20 0xaa ++ [1, 1, 16],
             [List.replicate 32 0xbb])
    ∧ ([68, 65, 2, 2] ++ List.replicate 20 0xaa ++ [1, 1, 16] : List Nat).get? 3
        ≠ some 0x04 := by decide

/-- C6 amended: for an issuance with both hashes, when the base record
fits the budget but adding the 20-byte torrent hash would exceed it,
encode returns the both-hashes-external opcode 0x03 with leftover
[torrentHash, sha2Hash]; when the torrent hash fits but adding the sha2
hash would exceed the budget, encode returns opcode 0x02 (torrent
embedded, sha2 external — the claim named 0x04, which is the
no-sha2 layout) with leftover exactly [sha2Hash]. -/
theorem claim_C6_amended (r : IssuanceRecord) (byteSize : Nat)
    (th s2 payb : List Nat) (fb : Nat)
    (hth : r.torrentHash = some th) (hs : r.sha2 = some s2)
    (ham : r.amount ≠ 0) (hlk : r.lockStatus = true)
    (hap : r.aggregationPolicy ≠ "") (hpr : r.protocol ≠ 0) (hvr : r.version ≠ 0)
    (hpb : encodeBulk r.payments = .ok payb)
    (hfl : issueFlagsEncode r.divisibility r.lockStatus r.aggregationPolicy = .ok fb) :
    ((sffcEncode r.amount).length + payb.length + 5 ≤ byteSize →
      byteSize < (sffcEncode r.amount).length + payb.length + 5 + th.length →
      issuanceEncode r byteSize
        = .ok (protocolBytes r.protocol ++ [r.version % 256] ++ [0x03]
               ++ (sffcEncode r.amount ++ payb ++ [fb]), [th, s2]))
    ∧ ((sffcEncode r.amount).length + payb.length + 5 + th.length ≤ byteSize →
      byteSize < (sffcEncode r.amount).length + payb.length + 5 + th.length + s2.length →
      issuanceEncode r byteSize
        = .ok (protocolBytes r.protocol ++ [r.version % 256] ++ [0x02] ++ th
               ++ (sffcEncode r.amount ++ payb ++ [fb]), [s2])) := by
  constructor
  · intro h1 h2
    unfold issuanceEncode
    rw [if_neg ham, if_neg (by simp [hlk]), if_neg hap, if_neg hpr, if_neg hvr,
      hpb, hfl]
    simp only [hs, hth]
    rw [if_neg (by simp [protocolBytes]; omega)]
    rw [if_neg (by simp [protocolBytes]; omega)]
  · intro h1 h2
    unfold issuanceEncode
    rw [if_neg ham, if_neg (by simp [hlk]), if_neg hap, if_neg hpr, if_neg hvr,
      hpb, hfl]
    simp only [hs, hth]
    rw [if_neg (by simp [protocolBytes]; omega)]
    rw [if_pos (by simp [protocolBytes]; omega)]
    rw [if_neg (by simp [protocolBytes]; omega)]

/-- C6 witness: the concrete record at budgets 20 (nothing fits: opcode
0x03, both hashes left over) and 40 (torrent fits: opcode 0x02, sha2
left over). -/
theorem claim_C6_amended_witness :
    issuanceEncode hashRecord 20
      = .ok (protocolBytes hashRecord.protocol ++ [hashRecord.version % 256] ++ [0x03]
             ++ (sffcEncode hashRecord.amount ++ [] ++ [16]),
             [List.replicate 20 0xaa, List.replicate 32 0xbb])
    ∧ issuanceEncode hashRecord 40
      = .ok (protocolBytes hashRecord.protocol ++ [hashRecord.version % 256] ++ [0x02]
             ++ List.replicate 20 0xaa
             ++ (sffcEncode hashRecord.amount ++ [] ++ [16]), [List.replicate 32 0xbb]) :=
  ⟨(claim_C6_amended hashRecord 20 (List.replicate 20 0xaa) (List.replicate 32 0xbb)
      [] 16 (by decide) (by decide) (by decide) (by decide) (by decide) (by decide)
      (by decide) (by decide) (by decide)).1 (by decide) (by decide),
   (claim_C6_amended hashRecord 40 (List.replicate 20 0xaa) (List.replicate 32 0xbb)
      [] 16 (by decide) (by decide) (by decide) (by decide) (by decide) (by decide)
      (by decide) (by decide) (by decide)).2 (by decide) (by decide)⟩

/-- C7: for a fixed record with both hashes present, the number of
leftover items returned by encode never increases with the byte budget:
for budgets b1 ≤ b2 at which encoding succeeds, the larger budget leaves
at most as many leftover hashes (issuance and transfer/burn families). -/
theorem claim_C7_leftover_antitone :
    (∀ (r : IssuanceRecord) (b1 b2 : Nat) (bytes1 bytes2 : List Nat)
      (l1 l2 : List (List Nat)),
      b1 ≤ b2 → r.torrentHash.isSome → r.sha2.isSome →
      issuanceEncode r b1 = .ok (bytes1, l1) →
      issuanceEncode r b2 = .ok (bytes2, l2) → l2.length ≤ l1.length)
    ∧ (∀ (r : TransferRecord) (b1 b2 : Nat) (bytes1 bytes2 : List Nat)
      (l1 l2 : List (List Nat)),
      b1 ≤ b2 → r.torrentHash.isSome → r.sha2.isSome →
      transferEncode r b1 = .ok (bytes1, l1) →
      transferEncode r b2 = .ok (bytes2, l2) → l2.length ≤ l1.length) := by
  constructor
  · intro r b1 b2 bytes1 bytes2 l1 l2 hb hts hss henc1 henc2
    obtain ⟨am, lk, dv, ap, pr, vr, pays, tor, sha, nr⟩ := r
    simp only at hts hss henc1 henc2
    obtain ⟨th, hth⟩ := Option.isSome_iff_exists.mp hts
    obtain ⟨s2, hs⟩ := Option.isSome_iff_exists.mp hss
    subst hth hs
    unfold issuanceEncode at henc1 henc2
    by_cases h1 : am = 0
    · rw [if_pos h1] at henc1; exact absurd henc1 (by simp)
    rw [if_neg h1] at henc1 henc2
    by_cases h2 : lk = false
    · rw [if_pos h2] at henc1; exact absurd henc1 (by simp)
    rw [if_neg h2] at henc1 henc2
    by_cases h3 : ap = ""
    · rw [if_pos h3] at henc1; exact absurd henc1 (by simp)
    rw [if_neg h3] at henc1 henc2
    by_cases h4 : pr = 0
    · rw [if_pos h4] at henc1; exact absurd henc1 (by simp)
    rw [if_neg h4] at henc1 henc2
    by_cases h5 : vr = 0
    · rw [if_pos h5] at henc1; exact absurd henc1 (by simp)
    rw [if_neg h5] at henc1 henc2
    cases hpb : encodeBulk pays with
    | error e => rw [hpb] at henc1; exact absurd henc1 (by simp)
    | ok payb =>
    rw [hpb] at henc1 henc2
    cases hfl : issueFlagsEncode dv lk ap with
    | error e => rw [hfl] at henc1; exact absurd henc1 (by simp)
    | ok fb =>
    rw [hfl] at henc1 henc2
    simp only at henc1 henc2
    by_cases hB1 :
        (protocolBytes pr ++ [vr % 256]).length
          + (sffcEncode am ++ payb ++ [fb]).length + 1 > b1
    · rw [if_pos hB1] at henc1; exact absurd henc1 (by simp)
    rw [if_neg hB1] at henc1
    rw [if_neg (by omega)] at henc2
    by_cases hs1 :
        (protocolBytes pr ++ [vr % 256]).length
          + (sffcEncode am ++ payb ++ [fb]).length + 1 + th.length ≤ b1
    · rw [if_pos hs1] at henc1
      rw [if_pos (by omega)] at henc2
      by_cases hs2 :
          (protocolBytes pr ++ [vr % 256]).length
            + (sffcEncode am ++ payb ++ [fb]).length + 1 + th.length + s2.length ≤ b1
      · rw [if_pos hs2] at henc1
        rw [if_pos (by omega)] at henc2
        simp only [Except.ok.injEq, Prod.mk.injEq] at henc1 henc2
        rw [← henc1.2, ← henc2.2]
      · rw [if_neg hs2] at henc1
        simp only [Except.ok.injEq, Prod.mk.injEq] at henc1
        rw [← henc1.2]
        by_cases ht2 :
            (protocolBytes pr ++ [vr % 256]).length
              + (sffcEncode am ++ payb ++ [fb]).length + 1 + th.length + s2.length ≤ b2
        · rw [if_pos ht2] at henc2
          simp only [Except.ok.injEq, Prod.mk.injEq] at henc2
          rw [← henc2.2]
          simp
        · rw [if_neg ht2] at henc2
          simp only [Except.ok.injEq, Prod.mk.injEq] at henc2
          rw [← henc2.2]
    · rw [if_neg hs1] at henc1
      simp only [Except.ok.injEq, Prod.mk.injEq] at henc1
      rw [← henc1.2]
      by_cases ht1 :
          (protocolBytes pr ++ [vr % 256]).length
            + (sffcEncode am ++ payb ++ [fb]).length + 1 + th.length ≤ b2
      · rw [if_pos ht1] at henc2
        by_cases ht2 :
            (protocolBytes pr ++ [vr % 256]).length
              + (sffcEncode am ++ payb ++ [fb]).length + 1 + th.length + s2.length ≤ b2
        · rw [if_pos ht2] at henc2
          simp only [Except.ok.injEq, Prod.mk.injEq] at henc2
          rw [← henc2.2]
          simp
        · rw [if_neg ht2] at henc2
          simp only [Except.ok.injEq, Prod.mk.injEq] at henc2
          rw [← henc2.2]
          simp
      · rw [if_neg ht1] at henc2
        simp only [Except.ok.injEq, Prod.mk.injEq] at henc2
        rw [← henc2.2]
  · intro r b1 b2 bytes1 bytes2 l1 l2 hb hts hss henc1 henc2
    obtain ⟨tp, pr, vr, sha, tor, nr⟩ := r
    simp only at hts hss henc1 henc2
    obtain ⟨th, hth⟩ := Option.isSome_iff_exists.mp hts
    obtain ⟨s2, hs⟩ := Option.isSome_iff_exists.mp hss
    subst hth hs
    unfold transferEncode at henc1 henc2
    cases tp with
    | plain pays =>
      cases hpb : encodeBulk pays with
      | error e => simp only [hpb] at henc1; exact absurd henc1 (by simp)
      | ok payb =>
      simp only [hpb] at henc1 henc2
      by_cases hB1 :
          (protocolBytes pr ++ [vr % 256]).length + payb.length + 1 > b1
      · rw [if_pos hB1] at henc1; exact absurd henc1 (by simp)
      rw [if_neg hB1] at henc1
      rw [if_neg (by omega)] at henc2
      by_cases hs1 :
          (protocolBytes pr ++ [vr % 256]).length + payb.length + 1 + th.length ≤ b1
      · rw [if_pos hs1] at henc1
        rw [if_pos (by omega)] at henc2
        by_cases hs2 :
            (protocolBytes pr ++ [vr % 256]).length + payb.length + 1
              + th.length + s2.length ≤ b1
        · rw [if_pos hs2] at henc1
          rw [if_pos (by omega)] at henc2
          simp only [Except.ok.injEq, Prod.mk.injEq] at henc1 henc2
          rw [← henc1.2, ← henc2.2]
        · rw [if_neg hs2] at henc1
          simp only [Except.ok.injEq, Prod.mk.injEq] at henc1
          rw [← henc1.2]
          by_cases ht2 :
              (protocolBytes pr ++ [vr % 256]).length + payb.length + 1
                + th.length + s2.length ≤ b2
          · rw [if_pos ht2] at henc2
            simp only [Except.ok.injEq, Prod.mk.injEq] at henc2
            rw [← henc2.2]
            simp
          · rw [if_neg ht2] at henc2
            simp only [Except.ok.injEq, Prod.mk.injEq] at henc2
            rw [← henc2.2]
      · rw [if_neg hs1] at henc1
        simp only [Except.ok.injEq, Prod.mk.injEq] at henc1
        rw [← henc1.2]
        by_cases ht1 :
            (protocolBytes pr ++ [vr % 256]).length + payb.length + 1 + th.length ≤ b2
        · rw [if_pos ht1] at henc2
          by_cases ht2 :
              (protocolBytes pr ++ [vr % 256]).length + payb.length + 1
                + th.length + s2.length ≤ b2
          · rw [if_pos ht2] at henc2
            simp only [Except.ok.injEq, Prod.mk.injEq] at henc2
            rw [← henc2.2]
            simp
          · rw [if_neg ht2] at henc2
            simp only [Except.ok.injEq, Prod.mk.injEq] at henc2
            rw [← henc2.2]
            simp
        · rw [if_neg ht1] at henc2
          simp only [Except.ok.injEq, Prod.mk.injEq] at henc2
          rw [← henc2.2]
    | burn pays =>
      cases hpb : burnEncodeBulk pays with
      | error e => simp only [hpb] at henc1; exact absurd henc1 (by simp)
      | ok payb =>
      simp only [hpb] at henc1 henc2
      by_cases hB1 :
          (protocolBytes pr ++ [vr % 256]).length + payb.length + 1 > b1
      · rw [if_pos hB1] at henc1; exact absurd henc1 (by simp)
      rw [if_neg hB1] at henc1
      rw [if_neg (by omega)] at henc2
      by_cases hs1 :
          (protocolBytes pr ++ [vr % 256]).length + payb.length + 1 + th.length ≤ b1
      · rw [if_pos hs1] at henc1
        rw [if_pos (by omega)] at henc2
        by_cases hs2 :
            (protocolBytes pr ++ [vr % 256]).length + payb.length + 1
              + th.length + s2.length ≤ b1
        · rw [if_pos hs2] at henc1
          rw [if_pos (by omega)] at henc2
          simp only [Except.ok.injEq, Prod.mk.injEq] at henc1 henc2
          rw [← henc1.2, ← henc2.2]
        · rw [if_neg hs2] at henc1
          simp only [Except.ok.injEq, Prod.mk.injEq] at henc1
          rw [← henc1.2]
          by_cases ht2 :
              (protocolBytes pr ++ [vr % 256]).length + payb.length + 1
                + th.length + s2.length ≤ b2
          · rw [if_pos ht2] at henc2
            simp only [Except.ok.injEq, Prod.mk.injEq] at henc2
            rw [← henc2.2]
            simp
          · rw [if_neg ht2] at henc2
            simp only [Except.ok.injEq, Prod.mk.injEq] at henc2
            rw [← henc2.2]
      · rw [if_neg hs1] at henc1
        simp only [Except.ok.injEq, Prod.mk.injEq] at henc1
        rw [← henc1.2]
        by_cases ht1 :
            (protocolBytes pr ++ [vr % 256]).length + payb.length + 1 + th.length ≤ b2
        · rw [if_pos ht1] at henc2
          by_cases ht2 :
              (protocolBytes pr ++ [vr % 256]).length + payb.length + 1
                + th.length + s2.length ≤ b2
          · rw [if_pos ht2] at henc2
            simp only [Except.ok.injEq, Prod.mk.injEq] at henc2
            rw [← henc2.2]
            simp
          · rw [if_neg ht2] at henc2
            simp only [Except.ok.injEq, Prod.mk.injEq] at henc2
            rw [← henc2.2]
            simp
        · rw [if_neg ht1] at henc2
          simp only [Except.ok.injEq, Prod.mk.injEq] at henc2
          rw [← henc2.2]

/-- C7 witness: the concrete both-hash issuance at budgets 30 and 80
(leftover [sha2] versus no leftover), and its transfer counterpart at
the same budgets. -/
theorem claim_C7_leftover_antitone_witness :
    ([] : List (List Nat)).length ≤ [List.replicate 32 0xbb].length
    ∧ ([] : List (List Nat)).length ≤ [List.replicate 32 0xbb].length :=
  ⟨claim_C7_leftover_antitone.1 hashRecord 30 80
      ([68, 65, 2, 2] ++ List.replicate 20 0xaa ++ [1, 1, 16])
      ([68, 65, 2, 1] ++ List.replicate 20 0xaa ++ List.replicate 32 0xbb ++ [1, 1, 16])
      [List.replicate 32 0xbb] [] (by decide) (by decide)
      (by decide) (by decide) (by decide),
   claim_C7_leftover_antitone.2
      { payments := .plain [], protocol := 0x4441, version := 2,
        sha2 := some (List.replicate 32 0xbb),
        torrentHash := some (List.replicate 20 0xaa), noRules := false }
      30 80
      ([68, 65, 2, 17] ++ List.replicate 20 0xaa)
      ([68, 65, 2, 16] ++ List.replicate 20 0xaa ++ List.replicate 32 0xbb)
      [List.replicate 32 0xbb] [] (by decide) (by decide) (by decide)
      (by decide) (by decide)⟩

/-- An issuance whose single payment (output 0, no flags) encodes with a
0x00 first byte. -/
def zeroPayRecord : IssuanceRecord :=
  { amount := 1, lockStatus := true, divisibility := 0,
    aggregationPolicy := "aggregatable", protocol := 0x4441, version := 2,
    payments := [{ skip := false, range := false, percent := false,
                   output := 0, amount := 1 }],
    torrentHash := none, sha2 := none, noRules := false }

/-- C1 counterexample: a valid issuance whose single payment has output
index 0 and no flags encodes successfully (nothing is left over — the
no-hash layout), but decoding the produced bytes returns an empty
payment list: the payment encodes to a record starting with 0x00, which
bulk decode treats as the end of the list.  The round trip does not
recover the record. -/
theorem claim_C1_counterexample :
    issuanceEncode zeroPayRecord 80
      = .ok ([68, 65, 2, 6, 1, 1, 0, 1, 1, 16], [])
    ∧ (issuanceDecode [68, 65, 2, 6, 1, 1, 0, 1, 1, 16]).map (fun d => d.payments)
        = .ok []
    ∧ zeroPayRecord.payments ≠ [] := by decide

/-- C1 amended: decode(encode(R)) recovers the protocol, version,
divisibility, lockStatus, aggregationPolicy, amount, embedded hashes and
the full payment list for every record R such that (i) encode succeeds
with an empty leftover (all of the record hashes embedded — with a hash
left over the wire record cannot carry it, and the one-hash and no-hash
opcodes 0x02/0x03 provably leave data out), (ii) the protocol fits
16 bits and the version 8 bits, (iii) an issuance with version 1 has
divisibility 0 (version 1 rescales the amount by 10^divisibility on
decode), (iv) hashes have their protocol lengths 20/32, (v) no payment
encodes with a 0x00 first byte (some flag set or a nonzero output), and
(vi) burn-family payments have an explicit range field and no
skip/percent flags (the burn codec drops them).  Families: issuance and
transfer/burn. -/
theorem claim_C1_amended :
    (∀ (r : IssuanceRecord) (byteSize : Nat) (bytes : List Nat),
      issuanceEncode r byteSize = .ok (bytes, []) →
      r.protocol < 65536 → r.version < 256 →
      (r.version = 1 → r.divisibility = 0) →
      (∀ th ∈ r.torrentHash, th.length = 20) →
      (∀ s ∈ r.sha2, s.length = 32) →
      (∀ p ∈ r.payments,
        p.skip = true ∨ p.range = true ∨ p.percent = true ∨ p.output ≠ 0) →
      ∃ d, issuanceDecode bytes = .ok d ∧
        d.protocol = r.protocol ∧ d.version = r.version ∧
        d.divisibility = r.divisibility ∧ d.lockStatus = r.lockStatus ∧
        d.aggregationPolicy = some r.aggregationPolicy ∧
        d.amount = r.amount ∧ d.torrentHash = r.torrentHash ∧
        d.sha2 = r.sha2 ∧ d.payments = r.payments)
    ∧ (∀ (r : TransferRecord) (byteSize : Nat) (bytes : List Nat),
      transferEncode r byteSize = .ok (bytes, []) →
      r.protocol < 65536 → r.version < 256 →
      (∀ th ∈ r.torrentHash, th.length = 20) →
      (∀ s ∈ r.sha2, s.length = 32) →
      (match r.payments with
        | .plain ps => ∀ p ∈ ps,
            p.skip = true ∨ p.range = true ∨ p.percent = true ∨ p.output ≠ 0
        | .burn ps => ∀ p ∈ ps, (p.burn = false → p.range.isSome) ∧
            (p.burn = true ∨ p.range.getD false = true ∨ p.output.getD 0 ≠ 0)) →
      ∃ d, transferDecode bytes = .ok d ∧
        d.protocol = r.protocol ∧ d.version = r.version ∧
        d.torrentHash = r.torrentHash ∧ d.sha2 = r.sha2 ∧
        d.payments = r.payments) :=
  ⟨fun _ _ _ henc hp hv hv1 hth hs2 hpay =>
      issuance_roundtrip henc hp hv hv1 hth hs2 hpay,
   fun _ _ _ henc hp hv hth hs2 hpay =>
      transfer_roundtrip henc hp hv hth hs2 hpay⟩

/-- The valid issuance used by the C1 witness. -/
def roundRecord : IssuanceRecord :=
  { amount := 5, lockStatus := true, divisibility := 0,
    aggregationPolicy := "aggregatable", protocol := 0x4441, version := 2,
    payments := [{ skip := false, range := false, percent := false,
                   output := 1, amount := 5 }],
    torrentHash := none, sha2 := none, noRules := false }

/-- The burn-family transfer used by the C1 witness. -/
def burnRecord : TransferRecord :=
  { payments := .burn [{ amount := 9, output := none, range := none, burn := true },
                       { amount := 2, output := some 3, range := some false,
                         burn := false }],
    protocol := 0x4441, version := 2, sha2 := none, torrentHash := none,
    noRules := false }

/-- C1 witness: a concrete issuance and a concrete burn-family record,
both satisfying the amended hypotheses, decode back to their fields. -/
theorem claim_C1_amended_witness :
    (∃ d, issuanceDecode [68, 65, 2, 6, 1, 5, 1, 1, 5, 16] = .ok d ∧
      d.protocol = roundRecord.protocol ∧ d.version = roundRecord.version ∧
      d.divisibility = roundRecord.divisibility ∧
      d.lockStatus = roundRecord.lockStatus ∧
      d.aggregationPolicy = some roundRecord.aggregationPolicy ∧
      d.amount = roundRecord.amount ∧ d.torrentHash = roundRecord.torrentHash ∧
      d.sha2 = roundRecord.sha2 ∧ d.payments = roundRecord.payments)
    ∧ (∃ d, transferDecode [68, 65, 2, 37, 31, 1, 9, 3, 1, 2] = .ok d ∧
      d.protocol = burnRecord.protocol ∧ d.version = burnRecord.version ∧
      d.torrentHash = burnRecord.torrentHash ∧ d.sha2 = burnRecord.sha2 ∧
      d.payments = burnRecord.payments) :=
  ⟨claim_C1_amended.1 roundRecord 80 [68, 65, 2, 6, 1, 5, 1, 1, 5, 16]
      (by decide) (by decide) (by decide) (by decide) (by simp [roundRecord])
      (by simp [roundRecord]) (by decide),
   claim_C1_amended.2 burnRecord 80 [68, 65, 2, 37, 31, 1, 9, 3, 1, 2]
      (by decide) (by decide) (by decide) (by simp [burnRecord])
      (by simp [burnRecord]) (by simp only [burnRecord]; decide)⟩

end DigiByte
